import Mathlib

/-!
# LEGv8 disassembler: embedding of `disassembler.go`

The Go program keeps three package-level variables (`instructions`, `labels`,
`instructionIndex`) and writes to standard output.  Here they are the fields of
`State`; standard output is a list of lines (each `Printf`/`Println` call of the
source writes exactly one newline-terminated line, stored without the newline).
A Go run-time panic (slice index out of range) is the `panic` constructor of
`Exec`, which keeps what had been written to standard output before it.

Machine integers: `uint32` values are `Nat` (every value built here from four
bytes is below `2 ^ 32`), `int16` values are `Int` obtained through `toInt16`,
and Go `int` values are `Int`/`Nat`.
-/

namespace Disassembler

/-- One byte of the input file. -/
abbrev Byte := Fin 256

/-- Fields of one instruction in decoded form (`type DecodedInstruction struct`). -/
structure DecodedInstruction where
  opcode : Nat
  rd : Nat
  rn : Nat
  rm : Nat
  shamt : Nat
  immediate : Nat
  bAddress : Int
  cbAddress : Int
  dAddress : Int
  deriving DecidableEq, Repr

/-- Zero value of `DecodedInstruction`, as produced by `make`. -/
def DecodedInstruction.zero : DecodedInstruction :=
  ⟨0, 0, 0, 0, 0, 0, 0, 0, 0⟩

/-- Go conversion `int16(x)` of an unsigned value: keep the low 16 bits and read
them as two's complement. -/
def toInt16 (x : Nat) : Int :=
  if x % 65536 < 32768 then ((x % 65536 : Nat) : Int) else ((x % 65536 : Nat) : Int) - 65536

/-- Field extraction at the head of `decode` (source lines 86 to 96). -/
def decodeFields (instr : Nat) : DecodedInstruction :=
  { opcode := (instr >>> 21) &&& 0x7FF
    rd := instr &&& 0x1F
    rn := (instr >>> 5) &&& 0x1F
    rm := (instr >>> 16) &&& 0x1F
    shamt := (instr >>> 10) &&& 0x3F
    immediate := (instr >>> 10) &&& 0xFFF
    bAddress := toInt16 (instr &&& 0x3FFFFFF)
    cbAddress := toInt16 ((instr >>> 5) &&& 0x7FFFF)
    dAddress := toInt16 ((instr >>> 12) &&& 0x1FF) }

/-- The three package-level variables of the program together with the lines
written to standard output so far. -/
structure State where
  instructions : List DecodedInstruction
  labels : List Bool
  instructionIndex : Nat
  stdout : List String
  deriving DecidableEq, Repr

/-- Outcome of a piece of code that can hit a Go run-time panic. -/
inductive Exec (α : Type) where
  | ok (a : α)
  | panic (stdout : List String)
  deriving DecidableEq, Repr

/-- The assignment `labels[branchIndex] = true`: a run-time panic (`none`) when
the index is negative or not below the length of the slice. -/
def markLabel (labels : List Bool) (branchIndex : Int) : Option (List Bool) :=
  if 0 ≤ branchIndex ∧ branchIndex < (labels.length : Int) then
    some (labels.set branchIndex.toNat true)
  else none

/-- The verb `%b` of `fmt` on an unsigned integer: binary digits, no prefix. -/
def formatBinary (n : Nat) : String :=
  String.mk (Nat.toDigits 2 n)

/-- Function `decode` of the source; `printProgram` is the package-level debug
toggle. -/
def decode (printProgram : Bool) (instr : Nat) (s : State) : Exec State :=
  let d := decodeFields instr
  if s.instructionIndex < s.instructions.length then
    let s1 : State := { s with instructions := s.instructions.set s.instructionIndex d }
    if printProgram then
      .ok { s1 with stdout := s1.stdout ++ [formatBinary instr ++ "\t" ++ toString d.opcode] }
    else if (160 ≤ d.opcode ∧ d.opcode ≤ 191) ∨ (1184 ≤ d.opcode ∧ d.opcode ≤ 1215) then
      match markLabel s1.labels ((s1.instructionIndex : Int) + d.bAddress) with
      | none => .panic s1.stdout
      | some ls => .ok { s1 with labels := ls, instructionIndex := s1.instructionIndex + 1 }
    else if (672 ≤ d.opcode ∧ d.opcode ≤ 679) ∨ (1448 ≤ d.opcode ∧ d.opcode ≤ 1455)
        ∨ (1440 ≤ d.opcode ∧ d.opcode ≤ 1447) then
      match markLabel s1.labels ((s1.instructionIndex : Int) + d.cbAddress) with
      | none => .panic s1.stdout
      | some ls => .ok { s1 with labels := ls, instructionIndex := s1.instructionIndex + 1 }
    else
      .ok { s1 with instructionIndex := s1.instructionIndex + 1 }
  else
    .panic s.stdout

/-- Function `getCondForOpcode` of the source: the pair (mnemonic, error), the
error being `none` for Go `nil`. -/
def getCondForOpcode (opcode : Nat) : String × Option String :=
  if opcode = 0x0 then ("EQ", none)
  else if opcode = 0x1 then ("NE", none)
  else if opcode = 0x2 then ("HS", none)
  else if opcode = 0x3 then ("LO", none)
  else if opcode = 0x4 then ("MI", none)
  else if opcode = 0x5 then ("PL", none)
  else if opcode = 0x6 then ("VS", none)
  else if opcode = 0x7 then ("VC", none)
  else if opcode = 0x8 then ("HI", none)
  else if opcode = 0x9 then ("LS", none)
  else if opcode = 0xA then ("GE", none)
  else if opcode = 0xB then ("LT", none)
  else if opcode = 0xC then ("GT", none)
  else if opcode = 0xD then ("LE", none)
  else ("", some ("Unhandled <cond> opcode (" ++ toString opcode ++ ") for instruction B.cond"))

/-- The local `labelMap` of `printAssembly` (a Go `map[int]string`), as an
association list in which the most recent binding of a key comes first. -/
abbrev LabelMap := List (Int × String)

/-- Key lookup in a label map. -/
def LabelMap.find? : LabelMap → Int → Option String
  | [], _ => none
  | (k', v) :: m, k => if k = k' then some v else LabelMap.find? m k

/-- Go map indexing `labelMap[k]`: the zero value `""` for an absent key. -/
def LabelMap.get (m : LabelMap) (k : Int) : String :=
  (LabelMap.find? m k).getD ""

/-- The naming loop of `printAssembly` (source lines 122 to 127), from index `i`
with `remaining` iterations to go; `none` is the panic of `labels[i]`. -/
def nameLabels (labels : List Bool) : (remaining : Nat) → (i : Nat) → (labelIndex : Nat) →
    LabelMap → Option LabelMap
  | 0, _, _, m => some m
  | r + 1, i, labelIndex, m =>
    match labels[i]? with
    | none => none
    | some true =>
      nameLabels labels r (i + 1) (labelIndex + 1) (((i : Int), "label" ++ toString labelIndex) :: m)
    | some false => nameLabels labels r (i + 1) labelIndex m

/-- What the opcode chain of the rendering loop does for one instruction: it
prints one line and goes on, or prints the error line and returns. -/
inductive Emit where
  | line (text : String)
  | abort (text : String)
  deriving DecidableEq, Repr

/-- The if/else chain of `printAssembly` (source lines 135 to 199) for the
instruction `instr` at index `i`. -/
def renderInstruction (labelMap : LabelMap) (i : Nat) (instr : DecodedInstruction) : Emit :=
  if instr.opcode = 1112 then
    .line ("ADD X" ++ toString instr.rd ++ ", X" ++ toString instr.rn ++ ", X" ++ toString instr.rm)
  else if instr.opcode = 1160 ∨ instr.opcode = 1161 then
    .line ("ADDI X" ++ toString instr.rd ++ ", X" ++ toString instr.rn ++ ", #"
      ++ toString instr.immediate)
  else if instr.opcode = 1104 then
    .line ("AND X" ++ toString instr.rd ++ ", X" ++ toString instr.rn ++ ", X" ++ toString instr.rm)
  else if instr.opcode = 1168 ∨ instr.opcode = 1169 then
    .line ("ANDI X" ++ toString instr.rd ++ ", X" ++ toString instr.rn ++ ", #"
      ++ toString instr.immediate)
  else if 160 ≤ instr.opcode ∧ instr.opcode ≤ 191 then
    .line ("B " ++ LabelMap.get labelMap ((i : Int) + instr.bAddress))
  else if 672 ≤ instr.opcode ∧ instr.opcode ≤ 679 then
    match getCondForOpcode instr.rd with
    | (_, some err) => .abort ("Error: " ++ err)
    | (cond, none) => .line ("B." ++ cond ++ " " ++ LabelMap.get labelMap ((i : Int) + instr.cbAddress))
  else if 1184 ≤ instr.opcode ∧ instr.opcode ≤ 1215 then
    .line ("BL " ++ LabelMap.get labelMap ((i : Int) + instr.bAddress))
  else if instr.opcode = 1712 then
    .line ("BR X" ++ toString instr.rn)
  else if 1448 ≤ instr.opcode ∧ instr.opcode ≤ 1455 then
    .line ("CBNZ X" ++ toString instr.rd ++ ", " ++ LabelMap.get labelMap ((i : Int) + instr.cbAddress))
  else if 1440 ≤ instr.opcode ∧ instr.opcode ≤ 1447 then
    .line ("CBZ X" ++ toString instr.rd ++ ", " ++ LabelMap.get labelMap ((i : Int) + instr.cbAddress))
  else if instr.opcode = 1616 then
    .line ("EOR X" ++ toString instr.rd ++ ", X" ++ toString instr.rn ++ ", X" ++ toString instr.rm)
  else if instr.opcode = 1680 ∨ instr.opcode = 1681 then
    .line ("EORI X" ++ toString instr.rd ++ ", X" ++ toString instr.rn ++ ", #"
      ++ toString instr.immediate)
  else if instr.opcode = 1986 then
    .line ("LDUR X" ++ toString instr.rd ++ ", [X" ++ toString instr.rn ++ ", #"
      ++ toString instr.dAddress ++ "]")
  else if instr.opcode = 1691 then
    .line ("LSL X" ++ toString instr.rd ++ ", X" ++ toString instr.rn ++ ", #" ++ toString instr.shamt)
  else if instr.opcode = 1690 then
    .line ("LSR X" ++ toString instr.rd ++ ", X" ++ toString instr.rn ++ ", #" ++ toString instr.shamt)
  else if instr.opcode = 1360 then
    .line ("ORR X" ++ toString instr.rd ++ ", X" ++ toString instr.rn ++ ", X" ++ toString instr.rm)
  else if instr.opcode = 1424 ∨ instr.opcode = 1425 then
    .line ("ORRI X" ++ toString instr.rd ++ ", X" ++ toString instr.rn ++ ", #"
      ++ toString instr.immediate)
  else if instr.opcode = 1984 then
    .line ("STUR X" ++ toString instr.rd ++ ", [X" ++ toString instr.rn ++ ", #"
      ++ toString instr.dAddress ++ "]")
  else if instr.opcode = 1624 then
    .line ("SUB X" ++ toString instr.rd ++ ", X" ++ toString instr.rn ++ ", X" ++ toString instr.rm)
  else if instr.opcode = 1672 ∨ instr.opcode = 1673 then
    .line ("SUBI X" ++ toString instr.rd ++ ", X" ++ toString instr.rn ++ ", #"
      ++ toString instr.immediate)
  else if instr.opcode = 1928 ∨ instr.opcode = 1929 then
    .line ("SUBIS X" ++ toString instr.rd ++ ", X" ++ toString instr.rn ++ ", #"
      ++ toString instr.immediate)
  else if instr.opcode = 1880 then
    .line ("SUBS X" ++ toString instr.rd ++ ", X" ++ toString instr.rn ++ ", X" ++ toString instr.rm)
  else if instr.opcode = 1240 then
    .line ("MUL X" ++ toString instr.rd ++ ", X" ++ toString instr.rn ++ ", X" ++ toString instr.rm)
  else if instr.opcode = 2045 then
    .line ("PRNT X" ++ toString instr.rd)
  else if instr.opcode = 2044 then
    .line "PRNL"
  else if instr.opcode = 2046 then
    .line "DUMP"
  else if instr.opcode = 2047 then
    .line "HALT"
  else
    .line ("Unhandled instruction; opcode in decimal: " ++ toString instr.opcode)

/-- What a run, or a part of one, wrote to standard output, and whether it ended
in a run-time panic. -/
structure Trace where
  lines : List String
  panicked : Bool
  deriving DecidableEq, Repr

/-- Put lines written earlier in front of a trace. -/
def Trace.prepend (ls : List String) (t : Trace) : Trace :=
  { t with lines := ls ++ t.lines }

/-- The label declaration printed at index `i` when it is marked (source lines
130 to 132). -/
def labelDecl (labelMap : LabelMap) (i : Nat) (marked : Bool) : List String :=
  if marked then [LabelMap.get labelMap (i : Int) ++ ":"] else []

/-- The rendering loop of `printAssembly` (source lines 129 to 200) over the
instructions that remain from index `i` on. -/
def printLoop (labels : List Bool) (labelMap : LabelMap) : Nat → List DecodedInstruction → Trace
  | _, [] => ⟨[], false⟩
  | i, instr :: rest =>
    match labels[i]? with
    | none => ⟨[], true⟩
    | some marked =>
      match renderInstruction labelMap i instr with
      | .abort e => ⟨labelDecl labelMap i marked ++ [e], false⟩
      | .line l => (printLoop labels labelMap (i + 1) rest).prepend (labelDecl labelMap i marked ++ [l])

/-- Function `printAssembly` of the source: the naming loop, then the rendering
loop. -/
def printAssembly (s : State) : Trace :=
  match nameLabels s.labels s.instructions.length 0 0 [] with
  | none => ⟨[], true⟩
  | some labelMap => printLoop s.labels labelMap 0 s.instructions

/-- The big-endian 32-bit word held by four bytes (`binary.BigEndian`). -/
def wordOfBytes (b0 b1 b2 b3 : Byte) : Nat :=
  b0.val * 2 ^ 24 + b1.val * 2 ^ 16 + b2.val * 2 ^ 8 + b3.val

/-- The read loop of `main` (source lines 69 to 79) over the bytes still unread.
`binary.Read` fills the word from four bytes; with no byte left it returns
`io.EOF` and the loop ends; with one to three bytes left it returns
`io.ErrUnexpectedEOF`, which the loop does not test for, so `decode` runs on the
zero word and the following read returns `io.EOF`. -/
def readLoop (printProgram : Bool) : List Byte → State → Exec State
  | [], s => .ok s
  | b0 :: b1 :: b2 :: b3 :: rest, s =>
    match decode printProgram (wordOfBytes b0 b1 b2 b3) s with
    | .panic out => .panic out
    | .ok s1 => readLoop printProgram rest s1
  | _ :: _, s => decode printProgram 0 s

/-- The state set up by `main` before reading (source lines 65 to 67). -/
def initState (file : List Byte) : State :=
  { instructions := List.replicate (file.length / 4) DecodedInstruction.zero
    labels := List.replicate (file.length / 4) false
    instructionIndex := 0
    stdout := [] }

/-- The loading part of `main`: allocation and the read loop. -/
def load (printProgram : Bool) (file : List Byte) : Exec State :=
  readLoop printProgram file (initState file)

/-- Function `main` of the source on an input file that opened, with the debug
toggle as a parameter: everything written to standard output, and whether the
run panicked. -/
def main (printProgram : Bool) (file : List Byte) : Trace :=
  match load printProgram file with
  | .panic out => ⟨out, true⟩
  | .ok s => (printAssembly s).prepend s.stdout

/-- Big-endian bytes of a 32-bit word. -/
def bytesOfWord (w : Nat) : List Byte :=
  [⟨w / 2 ^ 24 % 256, Nat.mod_lt _ (by decide)⟩, ⟨w / 2 ^ 16 % 256, Nat.mod_lt _ (by decide)⟩,
   ⟨w / 2 ^ 8 % 256, Nat.mod_lt _ (by decide)⟩, ⟨w % 256, Nat.mod_lt _ (by decide)⟩]

/-- The input file holding the given words, four big-endian bytes each. -/
def encode (ws : List Nat) : List Byte :=
  ws.flatMap bytesOfWord

/-! ## Reading of the specification

The definitions below follow the words of the specification (the opcode table,
the condition table, the textual conventions) and are compared with the code. -/

/-- Operand shapes of the opcode table. -/
inductive Shape where
  | rdRnRm
  | rdRnImm
  | rdRnShamt
  | rdRnDAddress
  | rnOnly
  | rdOnly
  | bare
  | target
  | rdTarget
  | condTarget
  deriving DecidableEq, Repr

/-- One row of the opcode table: kind, inclusive opcode range, operand shape. -/
structure Row where
  mnemonic : String
  lo : Nat
  hi : Nat
  shape : Shape
  deriving DecidableEq, Repr

/-- The opcode table of the specification, row by row. -/
def specTable : List Row :=
  [⟨"ADD", 1112, 1112, .rdRnRm⟩, ⟨"ADDI", 1160, 1161, .rdRnImm⟩, ⟨"AND", 1104, 1104, .rdRnRm⟩,
   ⟨"ANDI", 1168, 1169, .rdRnImm⟩, ⟨"B", 160, 191, .target⟩, ⟨"B.cond", 672, 679, .condTarget⟩,
   ⟨"BL", 1184, 1215, .target⟩, ⟨"BR", 1712, 1712, .rnOnly⟩, ⟨"CBNZ", 1448, 1455, .rdTarget⟩,
   ⟨"CBZ", 1440, 1447, .rdTarget⟩, ⟨"EOR", 1616, 1616, .rdRnRm⟩, ⟨"EORI", 1680, 1681, .rdRnImm⟩,
   ⟨"LDUR", 1986, 1986, .rdRnDAddress⟩, ⟨"LSL", 1691, 1691, .rdRnShamt⟩,
   ⟨"LSR", 1690, 1690, .rdRnShamt⟩, ⟨"ORR", 1360, 1360, .rdRnRm⟩, ⟨"ORRI", 1424, 1425, .rdRnImm⟩,
   ⟨"STUR", 1984, 1984, .rdRnDAddress⟩, ⟨"SUB", 1624, 1624, .rdRnRm⟩,
   ⟨"SUBI", 1672, 1673, .rdRnImm⟩, ⟨"SUBIS", 1928, 1929, .rdRnImm⟩, ⟨"SUBS", 1880, 1880, .rdRnRm⟩,
   ⟨"MUL", 1240, 1240, .rdRnRm⟩, ⟨"PRNT", 2045, 2045, .rdOnly⟩, ⟨"PRNL", 2044, 2044, .bare⟩,
   ⟨"DUMP", 2046, 2046, .bare⟩, ⟨"HALT", 2047, 2047, .bare⟩]

/-- The condition table of the specification: suffixes for the values 0 to 13. -/
def specConds : List String :=
  ["EQ", "NE", "HS", "LO", "MI", "PL", "VS", "VC", "HI", "LS", "GE", "LT", "GT", "LE"]

/-- The line the specification prescribes for a row: registers as `X<n>`,
immediates as `#<n>`, memory operands as `[X<n>, #<n>]`, branch targets as the
label name found at the absolute target index. -/
def Row.format (r : Row) (labelMap : LabelMap) (i : Nat) (instr : DecodedInstruction) : String :=
  match r.shape with
  | .rdRnRm =>
    r.mnemonic ++ " X" ++ toString instr.rd ++ ", X" ++ toString instr.rn ++ ", X" ++ toString instr.rm
  | .rdRnImm =>
    r.mnemonic ++ " X" ++ toString instr.rd ++ ", X" ++ toString instr.rn ++ ", #"
      ++ toString instr.immediate
  | .rdRnShamt =>
    r.mnemonic ++ " X" ++ toString instr.rd ++ ", X" ++ toString instr.rn ++ ", #"
      ++ toString instr.shamt
  | .rdRnDAddress =>
    r.mnemonic ++ " X" ++ toString instr.rd ++ ", [X" ++ toString instr.rn ++ ", #"
      ++ toString instr.dAddress ++ "]"
  | .rnOnly => r.mnemonic ++ " X" ++ toString instr.rn
  | .rdOnly => r.mnemonic ++ " X" ++ toString instr.rd
  | .bare => r.mnemonic
  | .target => r.mnemonic ++ " " ++ LabelMap.get labelMap ((i : Int) + instr.bAddress)
  | .rdTarget =>
    r.mnemonic ++ " X" ++ toString instr.rd ++ ", "
      ++ LabelMap.get labelMap ((i : Int) + instr.cbAddress)
  | .condTarget =>
    "B." ++ specConds.getD instr.rd "" ++ " " ++ LabelMap.get labelMap ((i : Int) + instr.cbAddress)

/-- Two's-complement reading of a 16-bit pattern `x < 2 ^ 16`. -/
def signed16 (x : Nat) : Int :=
  if x < 2 ^ 15 then (x : Int) else (x : Int) - 2 ^ 16

/-- The complete four-byte chunks of a file, as big-endian words, in order. -/
def wordsOf : List Byte → List Nat
  | b0 :: b1 :: b2 :: b3 :: rest => wordOfBytes b0 b1 b2 b3 :: wordsOf rest
  | _ => []

/-- Decoding a list of words one after the other, stopping at a panic. -/
def decodeAll (printProgram : Bool) : List Nat → State → Exec State
  | [], s => .ok s
  | w :: ws, s =>
    match decode printProgram w s with
    | .panic out => .panic out
    | .ok s1 => decodeAll printProgram ws s1

/-- The absolute target index that `decode` marks for the record `d` decoded at
index `i`, if it is a branch. -/
def branchTarget (d : DecodedInstruction) (i : Nat) : Option Int :=
  if (160 ≤ d.opcode ∧ d.opcode ≤ 191) ∨ (1184 ≤ d.opcode ∧ d.opcode ≤ 1215) then
    some ((i : Int) + d.bAddress)
  else if (672 ≤ d.opcode ∧ d.opcode ≤ 679) ∨ (1448 ≤ d.opcode ∧ d.opcode ≤ 1455)
      ∨ (1440 ≤ d.opcode ∧ d.opcode ≤ 1447) then
    some ((i : Int) + d.cbAddress)
  else none

/-- The relation "instruction `d` at index `i` targets index `j`" in the words of
the specification: a B or BL whose `i + bAddress` is `j`, or a B.cond, CBZ or
CBNZ whose `i + cbAddress` is `j`. -/
def Targets (d : DecodedInstruction) (i j : Nat) : Prop :=
  (((160 ≤ d.opcode ∧ d.opcode ≤ 191) ∨ (1184 ≤ d.opcode ∧ d.opcode ≤ 1215)) ∧
      (i : Int) + d.bAddress = (j : Int)) ∨
  (((672 ≤ d.opcode ∧ d.opcode ≤ 679) ∨ (1440 ≤ d.opcode ∧ d.opcode ≤ 1447) ∨
      (1448 ≤ d.opcode ∧ d.opcode ≤ 1455)) ∧ (i : Int) + d.cbAddress = (j : Int))

/-- The marked indices of a labels slice, in ascending order. -/
def markedIndices (labels : List Bool) : List Nat :=
  (List.range labels.length).filter (fun i => labels[i]? == some true)

/-- The marked indices of the tail `ls` of a labels slice that starts at index
`i`, in ascending order (auxiliary form of `markedIndices`). -/
def markedFrom : List Bool → Nat → List Nat
  | [], _ => []
  | true :: ls, i => i :: markedFrom ls (i + 1)
  | false :: ls, i => markedFrom ls (i + 1)

/-- The naming loop as a recursion on the flags that remain (auxiliary form of
`nameLabels`). -/
def namesFrom : List Bool → Nat → Nat → LabelMap → LabelMap
  | [], _, _, m => m
  | true :: ls, i, k, m => namesFrom ls (i + 1) (k + 1) (((i : Int), "label" ++ toString k) :: m)
  | false :: ls, i, k, m => namesFrom ls (i + 1) k m

/-- The text of what the opcode chain printed. -/
def Emit.text : Emit → String
  | .line t => t
  | .abort t => t

/-- A B.cond instruction whose condition field is not in the condition table. -/
def unrecognisedCond (d : DecodedInstruction) : Prop :=
  (672 ≤ d.opcode ∧ d.opcode ≤ 679) ∧ 13 < d.rd

instance (d : DecodedInstruction) : Decidable (unrecognisedCond d) := by
  unfold unrecognisedCond; infer_instance

/-- The opcode matches no row of the opcode table. -/
def matchesNoRow (opcode : Nat) : Prop :=
  ∀ r ∈ specTable, ¬ (r.lo ≤ opcode ∧ opcode ≤ r.hi)

instance (opcode : Nat) : Decidable (matchesNoRow opcode) := by
  unfold matchesNoRow; infer_instance

/-- The lines one iteration of the rendering loop writes for the instruction
`d` at index `i`: the label declaration when the index is marked, then the
line of the opcode chain. -/
def linesAt (labels : List Bool) (labelMap : LabelMap) (i : Nat) (d : DecodedInstruction) :
    List String :=
  labelDecl labelMap i (labels.getD i false) ++ [(renderInstruction labelMap i d).text]

/-- The lines of consecutive iterations of the rendering loop, from index `i`. -/
def linesOf (labels : List Bool) (labelMap : LabelMap) : Nat → List DecodedInstruction → List String
  | _, [] => []
  | i, d :: ds => linesAt labels labelMap i d ++ linesOf labels labelMap (i + 1) ds

/-- Recogniser of label declaration lines `label<k>:`. -/
def isLabelLine (l : String) : Bool :=
  "label".data.isPrefixOf l.data && l.data.getLast? == some ':'

/-- Number of lines of an output that are not label declarations. -/
def nonLabelCount (lines : List String) : Nat :=
  lines.countP (fun l => !isLabelLine l)

/-- The string starts with a character other than `l`. -/
def StartsNotL (s : String) : Prop :=
  ∃ c cs, s.data = c :: cs ∧ c ≠ 'l'

/-- The `bits`-wide two's-complement pattern of the integer `d`. -/
def twosComplement (bits : Nat) (d : Int) : Nat :=
  (d % 2 ^ bits).toNat

/-- The number written by a list of decimal digit characters. -/
def digitsValue (cs : List Char) : Nat :=
  cs.foldl (fun a c => 10 * a + (c.toNat - 48)) 0

instance (d : DecodedInstruction) (i j : Nat) : Decidable (Targets d i j) := by
  unfold Targets; infer_instance

/-- One branch of the if/else chain of `printAssembly`: the opcode condition it
tests and what it prints when taken. -/
structure Branch where
  cond : Nat → Bool
  emit : LabelMap → Nat → DecodedInstruction → Emit

/-- The branches of the if/else chain of `printAssembly`, in source order
(source lines 135 to 196). -/
def chainBranches : List Branch :=
  [
   ⟨fun op => op == 1112,
    fun _ _ instr =>
      .line ("ADD X" ++ toString instr.rd ++ ", X" ++ toString instr.rn ++ ", X" ++ toString instr.rm)⟩,
   ⟨fun op => op == 1160 || op == 1161,
    fun _ _ instr =>
      .line ("ADDI X" ++ toString instr.rd ++ ", X" ++ toString instr.rn ++ ", #"
        ++ toString instr.immediate)⟩,
   ⟨fun op => op == 1104,
    fun _ _ instr =>
      .line ("AND X" ++ toString instr.rd ++ ", X" ++ toString instr.rn ++ ", X" ++ toString instr.rm)⟩,
   ⟨fun op => op == 1168 || op == 1169,
    fun _ _ instr =>
      .line ("ANDI X" ++ toString instr.rd ++ ", X" ++ toString instr.rn ++ ", #"
        ++ toString instr.immediate)⟩,
   ⟨fun op => decide (160 ≤ op) && decide (op ≤ 191),
    fun labelMap i instr =>
      .line ("B " ++ LabelMap.get labelMap ((i : Int) + instr.bAddress))⟩,
   ⟨fun op => decide (672 ≤ op) && decide (op ≤ 679),
    fun labelMap i instr =>
      match getCondForOpcode instr.rd with
        | (_, some err) => .abort ("Error: " ++ err)
        | (cond, none) => .line ("B." ++ cond ++ " " ++ LabelMap.get labelMap ((i : Int) + instr.cbAddress))⟩,
   ⟨fun op => decide (1184 ≤ op) && decide (op ≤ 1215),
    fun labelMap i instr =>
      .line ("BL " ++ LabelMap.get labelMap ((i : Int) + instr.bAddress))⟩,
   ⟨fun op => op == 1712,
    fun _ _ instr =>
      .line ("BR X" ++ toString instr.rn)⟩,
   ⟨fun op => decide (1448 ≤ op) && decide (op ≤ 1455),
    fun labelMap i instr =>
      .line ("CBNZ X" ++ toString instr.rd ++ ", " ++ LabelMap.get labelMap ((i : Int) + instr.cbAddress))⟩,
   ⟨fun op => decide (1440 ≤ op) && decide (op ≤ 1447),
    fun labelMap i instr =>
      .line ("CBZ X" ++ toString instr.rd ++ ", " ++ LabelMap.get labelMap ((i : Int) + instr.cbAddress))⟩,
   ⟨fun op => op == 1616,
    fun _ _ instr =>
      .line ("EOR X" ++ toString instr.rd ++ ", X" ++ toString instr.rn ++ ", X" ++ toString instr.rm)⟩,
   ⟨fun op => op == 1680 || op == 1681,
    fun _ _ instr =>
      .line ("EORI X" ++ toString instr.rd ++ ", X" ++ toString instr.rn ++ ", #"
        ++ toString instr.immediate)⟩,
   ⟨fun op => op == 1986,
    fun _ _ instr =>
      .line ("LDUR X" ++ toString instr.rd ++ ", [X" ++ toString instr.rn ++ ", #"
        ++ toString instr.dAddress ++ "]")⟩,
   ⟨fun op => op == 1691,
    fun _ _ instr =>
      .line ("LSL X" ++ toString instr.rd ++ ", X" ++ toString instr.rn ++ ", #" ++ toString instr.shamt)⟩,
   ⟨fun op => op == 1690,
    fun _ _ instr =>
      .line ("LSR X" ++ toString instr.rd ++ ", X" ++ toString instr.rn ++ ", #" ++ toString instr.shamt)⟩,
   ⟨fun op => op == 1360,
    fun _ _ instr =>
      .line ("ORR X" ++ toString instr.rd ++ ", X" ++ toString instr.rn ++ ", X" ++ toString instr.rm)⟩,
   ⟨fun op => op == 1424 || op == 1425,
    fun _ _ instr =>
      .line ("ORRI X" ++ toString instr.rd ++ ", X" ++ toString instr.rn ++ ", #"
        ++ toString instr.immediate)⟩,
   ⟨fun op => op == 1984,
    fun _ _ instr =>
      .line ("STUR X" ++ toString instr.rd ++ ", [X" ++ toString instr.rn ++ ", #"
        ++ toString instr.dAddress ++ "]")⟩,
   ⟨fun op => op == 1624,
    fun _ _ instr =>
      .line ("SUB X" ++ toString instr.rd ++ ", X" ++ toString instr.rn ++ ", X" ++ toString instr.rm)⟩,
   ⟨fun op => op == 1672 || op == 1673,
    fun _ _ instr =>
      .line ("SUBI X" ++ toString instr.rd ++ ", X" ++ toString instr.rn ++ ", #"
        ++ toString instr.immediate)⟩,
   ⟨fun op => op == 1928 || op == 1929,
    fun _ _ instr =>
      .line ("SUBIS X" ++ toString instr.rd ++ ", X" ++ toString instr.rn ++ ", #"
        ++ toString instr.immediate)⟩,
   ⟨fun op => op == 1880,
    fun _ _ instr =>
      .line ("SUBS X" ++ toString instr.rd ++ ", X" ++ toString instr.rn ++ ", X" ++ toString instr.rm)⟩,
   ⟨fun op => op == 1240,
    fun _ _ instr =>
      .line ("MUL X" ++ toString instr.rd ++ ", X" ++ toString instr.rn ++ ", X" ++ toString instr.rm)⟩,
   ⟨fun op => op == 2045,
    fun _ _ instr =>
      .line ("PRNT X" ++ toString instr.rd)⟩,
   ⟨fun op => op == 2044,
    fun _ _ _ =>
      .line "PRNL"⟩,
   ⟨fun op => op == 2046,
    fun _ _ _ =>
      .line "DUMP"⟩,
   ⟨fun op => op == 2047,
    fun _ _ _ =>
      .line "HALT"⟩]

/-- An if/else chain over a list of branches: the first branch whose condition
holds is taken, and the final `else` prints the unhandled-opcode line. -/
def renderWith (branches : List Branch) (labelMap : LabelMap) (i : Nat)
    (instr : DecodedInstruction) : Emit :=
  match branches.find? (fun b => b.cond instr.opcode) with
  | some b => b.emit labelMap i instr
  | none => .line ("Unhandled instruction; opcode in decimal: " ++ toString instr.opcode)

/-- The first marking condition of `decode` (source line 105, B and BL). -/
def marksWithBAddress (op : Nat) : Prop :=
  (160 ≤ op ∧ op ≤ 191) ∨ (1184 ≤ op ∧ op ≤ 1215)

/-- The second marking condition of `decode` (source line 108, B.cond, CBNZ and
CBZ). -/
def marksWithCbAddress (op : Nat) : Prop :=
  (672 ≤ op ∧ op ≤ 679) ∨ (1448 ≤ op ∧ op ≤ 1455) ∨ (1440 ≤ op ∧ op ≤ 1447)

/-- The opcode is rendered with a label operand: for some instruction with
that opcode the rendered line depends on the label map. -/
def rendersLabelOperand (op : Nat) : Prop :=
  ∃ (d : DecodedInstruction) (i : Nat) (m m' : LabelMap),
    d.opcode = op ∧ renderInstruction m i d ≠ renderInstruction m' i d

/-! ## Bit-field lemmas -/

theorem land_mask (x n m : Nat) (h : m = 2 ^ n - 1) : x &&& m = x % 2 ^ n := by
  subst h
  exact Nat.and_pow_two_sub_one_eq_mod x n

theorem opcode_eq (w : Nat) : (decodeFields w).opcode = w / 2 ^ 21 % 2 ^ 11 := by
  simp only [decodeFields, Nat.shiftRight_eq_div_pow]
  exact land_mask _ 11 _ (by norm_num)

theorem rd_eq (w : Nat) : (decodeFields w).rd = w % 32 := by
  simp only [decodeFields]
  exact land_mask _ 5 _ (by norm_num)

theorem rn_eq (w : Nat) : (decodeFields w).rn = w / 32 % 32 := by
  simp only [decodeFields, Nat.shiftRight_eq_div_pow]
  exact land_mask _ 5 _ (by norm_num)

theorem rm_eq (w : Nat) : (decodeFields w).rm = w / 2 ^ 16 % 32 := by
  simp only [decodeFields, Nat.shiftRight_eq_div_pow]
  exact land_mask _ 5 _ (by norm_num)

theorem shamt_eq (w : Nat) : (decodeFields w).shamt = w / 2 ^ 10 % 64 := by
  simp only [decodeFields, Nat.shiftRight_eq_div_pow]
  exact land_mask _ 6 _ (by norm_num)

theorem immediate_eq (w : Nat) : (decodeFields w).immediate = w / 2 ^ 10 % 4096 := by
  simp only [decodeFields, Nat.shiftRight_eq_div_pow]
  exact land_mask _ 12 _ (by norm_num)

theorem bAddress_eq (w : Nat) : (decodeFields w).bAddress = toInt16 (w % 2 ^ 26) := by
  simp only [decodeFields]
  rw [land_mask w 26 _ (by norm_num)]

theorem cbAddress_eq (w : Nat) : (decodeFields w).cbAddress = toInt16 (w / 32 % 2 ^ 19) := by
  simp only [decodeFields, Nat.shiftRight_eq_div_pow]
  rw [land_mask _ 19 _ (by norm_num)]

theorem dAddress_eq (w : Nat) : (decodeFields w).dAddress = toInt16 (w / 2 ^ 12 % 2 ^ 9) := by
  simp only [decodeFields, Nat.shiftRight_eq_div_pow]
  rw [land_mask _ 9 _ (by norm_num)]

/-! ## One step of `decode` -/

theorem decode_ok_instructions {printProgram : Bool} {w : Nat} {s s' : State}
    (h : decode printProgram w s = .ok s') :
    s.instructionIndex < s.instructions.length ∧
      s'.instructions = s.instructions.set s.instructionIndex (decodeFields w) := by
  unfold decode at h
  simp only at h
  split_ifs at h with h1 h2 h3 h4
  · cases h; exact ⟨h1, rfl⟩
  · split at h
    · cases h
    · cases h; exact ⟨h1, rfl⟩
  · split at h
    · cases h
    · cases h; exact ⟨h1, rfl⟩
  · cases h; exact ⟨h1, rfl⟩

/-! ## Field extraction (C2, C3) -/

/-- C2: for every word `w` (in particular every 32-bit one) the record built by
`decode` has opcode = bits 21..31, rd = bits 0..4, rn = bits 5..9, rm = bits
16..20, shamt = bits 10..15 and immediate = bits 10..21 of `w`, given as
quotients and remainders; hence opcode < 2048, rd, rn, rm < 32, shamt < 64 and
immediate < 4096; and whenever `decode` completes, that record is what it
stored at the current instruction index. -/
theorem decode_unsigned_fields (w : Nat) :
    ((decodeFields w).opcode = w / 2 ^ 21 % 2 ^ 11 ∧ (decodeFields w).rd = w % 32 ∧
      (decodeFields w).rn = w / 32 % 32 ∧ (decodeFields w).rm = w / 2 ^ 16 % 32 ∧
      (decodeFields w).shamt = w / 2 ^ 10 % 64 ∧
      (decodeFields w).immediate = w / 2 ^ 10 % 4096) ∧
    ((decodeFields w).opcode < 2048 ∧ (decodeFields w).rd < 32 ∧ (decodeFields w).rn < 32 ∧
      (decodeFields w).rm < 32 ∧ (decodeFields w).shamt < 64 ∧
      (decodeFields w).immediate < 4096) ∧
    ∀ (printProgram : Bool) (s s' : State), decode printProgram w s = .ok s' →
      s'.instructions[s.instructionIndex]? = some (decodeFields w) := by
  refine ⟨⟨opcode_eq w, rd_eq w, rn_eq w, rm_eq w, shamt_eq w, immediate_eq w⟩, ⟨?_, ?_, ?_, ?_, ?_, ?_⟩, ?_⟩
  · rw [opcode_eq]; omega
  · rw [rd_eq]; omega
  · rw [rn_eq]; omega
  · rw [rm_eq]; omega
  · rw [shamt_eq]; omega
  · rw [immediate_eq]; omega
  · intro printProgram s s' h
    obtain ⟨hlt, hins⟩ := decode_ok_instructions h
    rw [hins, List.getElem?_set_self hlt]

/-- Witness for C2: decoding the word of `ADDI X3, X2, #10` into a fresh
one-slot state stores the extracted record at index 0. -/
theorem decode_unsigned_fields_witness :
    decode false 2432706627 ⟨[DecodedInstruction.zero], [false], 0, []⟩
        = .ok ⟨[decodeFields 2432706627], [false], 1, []⟩ ∧
      (⟨[decodeFields 2432706627], [false], 1, []⟩ : State).instructions[0]?
        = some (decodeFields 2432706627) :=
  ⟨by decide, (decode_unsigned_fields 2432706627).2.2 false
    ⟨[DecodedInstruction.zero], [false], 0, []⟩ ⟨[decodeFields 2432706627], [false], 1, []⟩
    (by decide)⟩

/-- C3: the address fields are the masked field cut to 16 bits and read as
two's complement: bAddress is the signed value of bits 0..15 of `w`, cbAddress
the signed value of bits 5..20, dAddress the value of bits 12..20; so words
that agree on bits 0..15 (on bits 5..20) have the same bAddress (cbAddress);
and whenever `decode` completes these are the values it stored. -/
theorem decode_address_fields (w : Nat) :
    (decodeFields w).bAddress = signed16 (w % 2 ^ 16) ∧
    (decodeFields w).cbAddress = signed16 (w / 2 ^ 5 % 2 ^ 16) ∧
    (decodeFields w).dAddress = ((w / 2 ^ 12 % 2 ^ 9 : Nat) : Int) ∧
    (∀ w' : Nat, w % 2 ^ 16 = w' % 2 ^ 16 →
      (decodeFields w).bAddress = (decodeFields w').bAddress) ∧
    (∀ w' : Nat, w / 2 ^ 5 % 2 ^ 16 = w' / 2 ^ 5 % 2 ^ 16 →
      (decodeFields w).cbAddress = (decodeFields w').cbAddress) ∧
    ∀ (printProgram : Bool) (s s' : State), decode printProgram w s = .ok s' →
      ∃ d, s'.instructions[s.instructionIndex]? = some d ∧ d.bAddress = signed16 (w % 2 ^ 16) ∧
        d.cbAddress = signed16 (w / 2 ^ 5 % 2 ^ 16) ∧
        d.dAddress = ((w / 2 ^ 12 % 2 ^ 9 : Nat) : Int) := by
  have hb : ∀ v : Nat, (decodeFields v).bAddress = signed16 (v % 2 ^ 16) := by
    intro v
    rw [bAddress_eq]
    unfold toInt16 signed16
    have e : v % 2 ^ 26 % 65536 = v % 2 ^ 16 := by norm_num
    rw [e]
    norm_num
  have hcb : ∀ v : Nat, (decodeFields v).cbAddress = signed16 (v / 2 ^ 5 % 2 ^ 16) := by
    intro v
    rw [cbAddress_eq]
    unfold toInt16 signed16
    have e : v / 32 % 2 ^ 19 % 65536 = v / 2 ^ 5 % 2 ^ 16 := by norm_num
    rw [e]
    norm_num
  have hd : (decodeFields w).dAddress = ((w / 2 ^ 12 % 2 ^ 9 : Nat) : Int) := by
    rw [dAddress_eq]
    unfold toInt16
    have e : w / 2 ^ 12 % 2 ^ 9 % 65536 = w / 2 ^ 12 % 2 ^ 9 := by norm_num; omega
    have l : w / 2 ^ 12 % 2 ^ 9 < 32768 := by norm_num; omega
    rw [e, if_pos l]
  refine ⟨hb w, hcb w, hd, ?_, ?_, ?_⟩
  · intro w' h
    rw [hb w, hb w', h]
  · intro w' h
    rw [hcb w, hcb w', h]
  · intro printProgram s s' h
    obtain ⟨hlt, hins⟩ := decode_ok_instructions h
    exact ⟨decodeFields w, by rw [hins, List.getElem?_set_self hlt], hb w, hcb w, hd⟩

/-- Witness for C3: the words `0x0001FFFF` and `0x0000FFFF` agree on bits 0..15
and both decode to bAddress `-1`; the bits 16..25 of the first are lost. -/
theorem decode_address_fields_witness :
    131071 % 2 ^ 16 = 65535 % 2 ^ 16 ∧
      (decodeFields 131071).bAddress = (decodeFields 65535).bAddress ∧
      (decodeFields 131071).bAddress = -1 :=
  ⟨by decide, (decode_address_fields 131071).2.2.2.1 65535 (by decide), by decide⟩

/-! ## Condition codes (C7) -/

/-- C7: `getCondForOpcode` returns without error EQ, NE, HS, LO, MI, PL, VS, VC,
HI, LS, GE, LT, GT, LE for 0, 1, ..., 13, and an error with an empty mnemonic
for every other value (so for 0xE and 0xF); it fails exactly when its argument
is greater than 13. -/
theorem getCondForOpcode_table :
    (getCondForOpcode 0 = ("EQ", none) ∧ getCondForOpcode 1 = ("NE", none) ∧
      getCondForOpcode 2 = ("HS", none) ∧ getCondForOpcode 3 = ("LO", none) ∧
      getCondForOpcode 4 = ("MI", none) ∧ getCondForOpcode 5 = ("PL", none) ∧
      getCondForOpcode 6 = ("VS", none) ∧ getCondForOpcode 7 = ("VC", none) ∧
      getCondForOpcode 8 = ("HI", none) ∧ getCondForOpcode 9 = ("LS", none) ∧
      getCondForOpcode 10 = ("GE", none) ∧ getCondForOpcode 11 = ("LT", none) ∧
      getCondForOpcode 12 = ("GT", none) ∧ getCondForOpcode 13 = ("LE", none)) ∧
    (∀ n : Nat, 13 < n → (getCondForOpcode n).1 = "" ∧ (getCondForOpcode n).2 ≠ none) ∧
    ((getCondForOpcode 0xE).2 ≠ none ∧ (getCondForOpcode 0xF).2 ≠ none) ∧
    (∀ n : Nat, (getCondForOpcode n).2 ≠ none ↔ 13 < n) := by
  have hbad : ∀ n : Nat, 13 < n → (getCondForOpcode n).1 = "" ∧ (getCondForOpcode n).2 ≠ none := by
    intro n hn
    unfold getCondForOpcode
    simp only [show ¬ n = 0x0 by omega, show ¬ n = 0x1 by omega, show ¬ n = 0x2 by omega,
      show ¬ n = 0x3 by omega, show ¬ n = 0x4 by omega, show ¬ n = 0x5 by omega,
      show ¬ n = 0x6 by omega, show ¬ n = 0x7 by omega, show ¬ n = 0x8 by omega,
      show ¬ n = 0x9 by omega, show ¬ n = 0xA by omega, show ¬ n = 0xB by omega,
      show ¬ n = 0xC by omega, show ¬ n = 0xD by omega, if_false]
    simp
  have hgood : ∀ n : Nat, n ≤ 13 → (getCondForOpcode n).2 = none := by
    intro n hn
    interval_cases n <;> rfl
  refine ⟨⟨rfl, rfl, rfl, rfl, rfl, rfl, rfl, rfl, rfl, rfl, rfl, rfl, rfl, rfl⟩, hbad,
    ⟨(hbad 14 (by omega)).2, (hbad 15 (by omega)).2⟩, ?_⟩
  intro n
  constructor
  · intro h
    by_contra hle
    exact h (hgood n (by omega))
  · intro h
    exact (hbad n h).2

/-- Witness for C7: the value 14 is rejected with an empty mnemonic. -/
theorem getCondForOpcode_table_witness :
    (getCondForOpcode 14).1 = "" ∧ (getCondForOpcode 14).2 ≠ none :=
  getCondForOpcode_table.2.1 14 (by decide)

/-! ## The opcode chain against the table (C1) -/

theorem specConds_getCond (n : Nat) (h : n ≤ 13) :
    getCondForOpcode n = (specConds.getD n "", none) := by
  interval_cases n <;> rfl

theorem printLoop_line {labels : List Bool} {labelMap : LabelMap} {i : Nat}
    {instr : DecodedInstruction} {rest : List DecodedInstruction} {marked : Bool} {l : String}
    (hm : labels[i]? = some marked) (hl : renderInstruction labelMap i instr = .line l) :
    printLoop labels labelMap i (instr :: rest) =
      (printLoop labels labelMap (i + 1) rest).prepend (labelDecl labelMap i marked ++ [l]) := by
  simp only [printLoop, hm, hl]

/-- C1: for every row of the opcode table and every instruction whose opcode
lies in the row's range (for the B.cond row: with a recognised condition, rd at
most 13), the opcode chain of `printAssembly` prints exactly the line the
specification prescribes for that row (mnemonic, then the operands of the row
in order, in the stated textual conventions), and the rendering loop emits that
line for the instruction, after the label declaration if the index is marked,
and goes on with the next index. -/
theorem render_matches_table (labels : List Bool) (labelMap : LabelMap) (i : Nat)
    (instr : DecodedInstruction) (rest : List DecodedInstruction) (marked : Bool) (r : Row)
    (hr : r ∈ specTable) (hlo : r.lo ≤ instr.opcode) (hhi : instr.opcode ≤ r.hi)
    (hc : r.shape = Shape.condTarget → instr.rd ≤ 13) (hm : labels[i]? = some marked) :
    renderInstruction labelMap i instr = .line (r.format labelMap i instr) ∧
    printLoop labels labelMap i (instr :: rest) =
      (printLoop labels labelMap (i + 1) rest).prepend
        (labelDecl labelMap i marked ++ [r.format labelMap i instr]) := by
  have key : renderInstruction labelMap i instr = .line (r.format labelMap i instr) := by
    simp only [specTable, List.mem_cons, List.mem_singleton, List.not_mem_nil, or_false] at hr
    rcases hr with rfl | rfl | rfl | rfl | rfl | rfl | rfl | rfl | rfl | rfl | rfl | rfl | rfl | rfl
      | rfl | rfl | rfl | rfl | rfl | rfl | rfl | rfl | rfl | rfl | rfl | rfl | rfl
    case inr.inr.inr.inr.inr.inl =>
      have hrd : instr.rd ≤ 13 := hc rfl
      replace hlo : 672 ≤ instr.opcode := hlo
      replace hhi : instr.opcode ≤ 679 := hhi
      unfold renderInstruction
      rw [specConds_getCond instr.rd hrd]
      repeat (first | rw [if_pos (by omega)] | rw [if_neg (by omega)])
      rfl
    all_goals
      dsimp only at hlo hhi
      unfold renderInstruction
      repeat (first | rw [if_pos (by omega)] | rw [if_neg (by omega)])
      try rfl
  exact ⟨key, printLoop_line hm key⟩

/-- Witness for C1: the ADDI row on the decoded word of `ADDI X3, X2, #10`. -/
theorem render_matches_table_witness :
    renderInstruction [] 0 (decodeFields 2432706627) = .line "ADDI X3, X2, #10" ∧
    printLoop [false] [] 0 [decodeFields 2432706627] = ⟨["ADDI X3, X2, #10"], false⟩ :=
  render_matches_table [false] [] 0 (decodeFields 2432706627) [] false
    ⟨"ADDI", 1160, 1161, .rdRnImm⟩ (by decide) (by decide) (by decide) (by decide) (by decide)

/-! ## Loading, naming and rendering lemmas -/

theorem wordsOf_length (file : List Byte) : (wordsOf file).length = file.length / 4 := by
  induction file using wordsOf.induct with
  | case1 b0 b1 b2 b3 rest ih =>
    simp only [wordsOf, List.length_cons, ih]
    omega
  | case2 file h =>
    match file, h with
    | [], _ => rfl
    | [_], _ => simp [wordsOf]
    | [_, _], _ => simp [wordsOf]
    | [_, _, _], _ => simp [wordsOf]
    | b0 :: b1 :: b2 :: b3 :: rest, h => exact absurd rfl (h b0 b1 b2 b3 rest)

theorem decode_false_ok {w : Nat} {s s' : State} (h : decode false w s = .ok s') :
    s.instructionIndex < s.instructions.length ∧
      s'.instructions = s.instructions.set s.instructionIndex (decodeFields w) ∧
      s'.instructionIndex = s.instructionIndex + 1 ∧ s'.stdout = s.stdout ∧
      ((branchTarget (decodeFields w) s.instructionIndex = none ∧ s'.labels = s.labels) ∨
        ∃ t : Int, branchTarget (decodeFields w) s.instructionIndex = some t ∧ 0 ≤ t ∧
          t < (s.labels.length : Int) ∧ s'.labels = s.labels.set t.toNat true) := by
  unfold decode at h
  simp only [Bool.false_eq_true, if_false] at h
  unfold branchTarget
  split_ifs at h with h1 h2 h3
  · rw [if_pos h2]
    simp only [markLabel] at h
    split_ifs at h with h4
    · simp only [Exec.ok.injEq] at h
      subst h
      exact ⟨h1, rfl, rfl, rfl, Or.inr ⟨_, rfl, h4.1, h4.2, rfl⟩⟩
  · rw [if_neg h2, if_pos h3]
    simp only [markLabel] at h
    split_ifs at h with h4
    · simp only [Exec.ok.injEq] at h
      subst h
      exact ⟨h1, rfl, rfl, rfl, Or.inr ⟨_, rfl, h4.1, h4.2, rfl⟩⟩
  · rw [if_neg h2, if_neg h3]
    simp only [Exec.ok.injEq] at h
    subst h
    exact ⟨h1, rfl, rfl, rfl, Or.inl ⟨rfl, rfl⟩⟩

theorem decodeAll_cons_ok {printProgram : Bool} {w : Nat} {ws : List Nat} {s s' : State}
    (h : decodeAll printProgram (w :: ws) s = .ok s') :
    ∃ s1, decode printProgram w s = .ok s1 ∧ decodeAll printProgram ws s1 = .ok s' := by
  simp only [decodeAll] at h
  cases hd : decode printProgram w s with
  | panic out => rw [hd] at h; cases h
  | ok s1 => rw [hd] at h; exact ⟨s1, rfl, h⟩

theorem decodeAll_false_shape : ∀ (ws : List Nat) (s s' : State),
    decodeAll false ws s = .ok s' →
      s'.instructionIndex = s.instructionIndex + ws.length ∧
      s'.instructions.length = s.instructions.length ∧
      s'.labels.length = s.labels.length ∧
      s'.stdout = s.stdout := by
  intro ws
  induction ws with
  | nil =>
    intro s s' h
    simp only [decodeAll, Exec.ok.injEq] at h
    subst h
    simp
  | cons w ws ih =>
    intro s s' h
    obtain ⟨s1, h1, h2⟩ := decodeAll_cons_ok h
    obtain ⟨a1, a2, a3, a4, a5⟩ := decode_false_ok h1
    obtain ⟨b2, b3, b4, b5⟩ := ih s1 s' h2
    have hl : s1.labels.length = s.labels.length := by
      rcases a5 with ⟨_, e⟩ | ⟨t, _, _, _, e⟩ <;> simp [e]
    have hi : s1.instructions.length = s.instructions.length := by simp [a2]
    simp only [List.length_cons]
    refine ⟨by omega, by omega, by omega, by rw [b5, a4]⟩

theorem decodeAll_false_instructions : ∀ (ws : List Nat) (s s' : State),
    decodeAll false ws s = .ok s' →
      (∀ k, k < ws.length →
        s'.instructions[s.instructionIndex + k]? = (ws[k]?).map decodeFields) ∧
      (∀ k, k < s.instructionIndex → s'.instructions[k]? = s.instructions[k]?) := by
  intro ws
  induction ws with
  | nil =>
    intro s s' h
    simp only [decodeAll, Exec.ok.injEq] at h
    subst h
    simp
  | cons w ws ih =>
    intro s s' h
    obtain ⟨s1, h1, h2⟩ := decodeAll_cons_ok h
    obtain ⟨a1, a2, a3, a4, a5⟩ := decode_false_ok h1
    obtain ⟨b1, b2⟩ := ih s1 s' h2
    constructor
    · intro k hk
      cases k with
      | zero =>
        rw [Nat.add_zero, b2 _ (by omega), a2, List.getElem?_set_self a1]
        simp
      | succ k =>
        have := b1 k (by simpa using hk)
        rw [a3] at this
        rw [show s.instructionIndex + (k + 1) = s.instructionIndex + 1 + k by omega, this]
        simp
    · intro k hk
      rw [b2 k (by omega), a2, List.getElem?_set_ne (by omega)]

theorem getElem?_set_true (l : List Bool) (t j : Nat) (ht : t < l.length) :
    (l.set t true)[j]? = some true ↔ l[j]? = some true ∨ j = t := by
  by_cases hj : j = t
  · subst hj
    simp [List.getElem?_set_self ht]
  · rw [List.getElem?_set_ne (fun e => hj e.symm)]
    simp [hj]

theorem decodeAll_false_labels : ∀ (ws : List Nat) (s s' : State),
    decodeAll false ws s = .ok s' →
      (∀ j : Nat, s'.labels[j]? = some true ↔
        (s.labels[j]? = some true ∨ ∃ k w, ws[k]? = some w ∧
          branchTarget (decodeFields w) (s.instructionIndex + k) = some (j : Int))) ∧
      (∀ k w t, ws[k]? = some w →
        branchTarget (decodeFields w) (s.instructionIndex + k) = some t →
          0 ≤ t ∧ t < (s.labels.length : Int)) := by
  intro ws
  induction ws with
  | nil =>
    intro s s' h
    simp only [decodeAll, Exec.ok.injEq] at h
    subst h
    simp
  | cons w ws ih =>
    intro s s' h
    obtain ⟨s1, h1, h2⟩ := decodeAll_cons_ok h
    obtain ⟨a1, a2, a3, a4, a5⟩ := decode_false_ok h1
    obtain ⟨b1, b2⟩ := ih s1 s' h2
    have hl : s1.labels.length = s.labels.length := by
      rcases a5 with ⟨_, e⟩ | ⟨t, _, _, _, e⟩ <;> simp [e]
    have shift : ∀ k, s1.instructionIndex + k = s.instructionIndex + (k + 1) := by
      intro k; rw [a3]; omega
    constructor
    · intro j
      rw [b1 j]
      constructor
      · rintro (hj | ⟨k, v, hkv, hb⟩)
        · rcases a5 with ⟨_, e⟩ | ⟨t, ht, ht0, htl, e⟩
          · rw [e] at hj; exact Or.inl hj
          · rw [e, getElem?_set_true _ _ _ (by omega)] at hj
            rcases hj with hj | hj
            · exact Or.inl hj
            · refine Or.inr ⟨0, w, by simp, ?_⟩
              rw [Nat.add_zero, ht, hj, Int.toNat_of_nonneg ht0]
        · exact Or.inr ⟨k + 1, v, by simpa using hkv, by rw [← shift]; exact hb⟩
      · rintro (hj | ⟨k, v, hkv, hb⟩)
        · rcases a5 with ⟨_, e⟩ | ⟨t, ht, ht0, htl, e⟩
          · rw [e]; exact Or.inl hj
          · rw [e, getElem?_set_true _ _ _ (by omega)]; exact Or.inl (Or.inl hj)
        · cases k with
          | zero =>
            simp only [List.getElem?_cons_zero, Option.some.injEq] at hkv
            subst hkv
            rw [Nat.add_zero] at hb
            rcases a5 with ⟨hn, _⟩ | ⟨t, ht, ht0, htl, e⟩
            · rw [hn] at hb; cases hb
            · rw [ht] at hb
              simp only [Option.some.injEq] at hb
              subst hb
              rw [e, getElem?_set_true _ _ _ (by omega)]
              exact Or.inl (Or.inr (by simp))
          | succ k =>
            exact Or.inr ⟨k, v, by simpa using hkv, by rw [shift]; exact hb⟩
    · intro k v t hkv hb
      cases k with
      | zero =>
        simp only [List.getElem?_cons_zero, Option.some.injEq] at hkv
        subst hkv
        rw [Nat.add_zero] at hb
        rcases a5 with ⟨hn, _⟩ | ⟨t', ht, ht0, htl, e⟩
        · rw [hn] at hb; cases hb
        · rw [ht] at hb
          simp only [Option.some.injEq] at hb
          subst hb
          exact ⟨ht0, htl⟩
      | succ k =>
        have := b2 k v t (by simpa using hkv) (by rw [shift]; exact hb)
        rw [hl] at this
        exact this

theorem decodeAll_append (printProgram : Bool) : ∀ (ws vs : List Nat) (s : State),
    decodeAll printProgram (ws ++ vs) s =
      match decodeAll printProgram ws s with
      | .panic out => .panic out
      | .ok s1 => decodeAll printProgram vs s1 := by
  intro ws
  induction ws with
  | nil => intro vs s; rfl
  | cons w ws ih =>
    intro vs s
    simp only [List.cons_append, decodeAll]
    cases decode printProgram w s with
    | panic out => rfl
    | ok s1 => exact ih vs s1

theorem readLoop_eq (printProgram : Bool) (file : List Byte) (s : State) :
    readLoop printProgram file s =
      if file.length % 4 = 0 then decodeAll printProgram (wordsOf file) s
      else decodeAll printProgram (wordsOf file ++ [0]) s := by
  induction file using wordsOf.induct generalizing s with
  | case1 b0 b1 b2 b3 rest ih =>
    have e : (b0 :: b1 :: b2 :: b3 :: rest).length % 4 = rest.length % 4 := by
      simp only [List.length_cons]; omega
    rw [e]
    simp only [readLoop, wordsOf, List.cons_append, decodeAll]
    cases decode printProgram (wordOfBytes b0 b1 b2 b3) s with
    | panic out => simp
    | ok s1 => exact ih s1
  | case2 file hne =>
    match file, hne with
    | [], _ => rfl
    | [_], _ => simp [readLoop, wordsOf, decodeAll]; split <;> assumption
    | [_, _], _ => simp [readLoop, wordsOf, decodeAll]; split <;> assumption
    | [_, _, _], _ => simp [readLoop, wordsOf, decodeAll]; split <;> assumption
    | b0 :: b1 :: b2 :: b3 :: rest, hne => exact absurd rfl (hne b0 b1 b2 b3 rest)

theorem decodeAll_false_room : ∀ (ws : List Nat) (s s' : State),
    decodeAll false ws s = .ok s' → ws ≠ [] →
      s.instructionIndex + ws.length ≤ s.instructions.length := by
  intro ws
  induction ws with
  | nil => intro s s' _ hne; exact absurd rfl hne
  | cons w ws ih =>
    intro s s' h _
    obtain ⟨s1, h1, h2⟩ := decodeAll_cons_ok h
    obtain ⟨a1, a2, a3, _, _⟩ := decode_false_ok h1
    by_cases hws : ws = []
    · subst hws; simp only [List.length_cons, List.length_nil]; omega
    · have := ih s1 s' h2 hws
      rw [a3, a2, List.length_set] at this
      simp only [List.length_cons]
      omega

theorem load_false_aligned {file : List Byte} {s : State} (h : load false file = .ok s) :
    file.length % 4 = 0 := by
  by_contra hne
  unfold load at h
  rw [readLoop_eq, if_neg hne] at h
  have := decodeAll_false_room _ _ _ h (by simp)
  simp [initState, wordsOf_length] at this

theorem load_false_eq {file : List Byte} {s : State} (h : load false file = .ok s) :
    decodeAll false (wordsOf file) (initState file) = .ok s := by
  have ha := load_false_aligned h
  unfold load at h
  rwa [readLoop_eq, if_pos ha] at h

theorem branchTarget_iff (d : DecodedInstruction) (i j : Nat) :
    branchTarget d i = some (j : Int) ↔ Targets d i j := by
  unfold branchTarget Targets
  split_ifs with h1 h2
  · simp only [Option.some.injEq]
    constructor
    · intro h; exact Or.inl ⟨h1, h⟩
    · rintro (⟨_, h⟩ | ⟨h, _⟩)
      · exact h
      · omega
  · simp only [Option.some.injEq]
    constructor
    · intro h; exact Or.inr ⟨by omega, h⟩
    · rintro (⟨h, _⟩ | ⟨_, h⟩)
      · exact absurd h h1
      · exact h
  · constructor
    · intro h; cases h
    · rintro (⟨h, _⟩ | ⟨h, _⟩)
      · exact absurd h h1
      · omega

/-- C8: after a program has been loaded without failure in normal mode, the
labels slice has one flag per word and, for every index `j` below the number of
words `N`, `labels[j]` is true exactly when some instruction `i < N` targets
`j` (a B or BL with `i + bAddress = j`, or a B.cond, CBZ or CBNZ with
`i + cbAddress = j`). -/
theorem labels_iff_targeted (file : List Byte) (s : State) (h : load false file = .ok s) :
    s.labels.length = file.length / 4 ∧
    ∀ j : Nat, j < file.length / 4 →
      (s.labels[j]? = some true ↔
        ∃ i d, i < file.length / 4 ∧ s.instructions[i]? = some d ∧ Targets d i j) := by
  have hd := load_false_eq h
  obtain ⟨l1, l2⟩ := decodeAll_false_labels _ _ _ hd
  obtain ⟨i1, _⟩ := decodeAll_false_instructions _ _ _ hd
  obtain ⟨_, _, hlen, _⟩ := decodeAll_false_shape _ _ _ hd
  refine ⟨by simpa [initState] using hlen, ?_⟩
  intro j _
  have hinit : (initState file).labels[j]? ≠ some true := by
    simp [initState, List.getElem?_replicate]
  have hidx : (initState file).instructionIndex = 0 := rfl
  rw [l1 j]
  simp only [hidx, Nat.zero_add] at i1 l1 ⊢
  constructor
  · rintro (h0 | ⟨k, w, hkw, hb⟩)
    · exact absurd h0 hinit
    · have hk : k < (wordsOf file).length := (List.getElem?_eq_some_iff.mp hkw).1
      refine ⟨k, decodeFields w, by rwa [wordsOf_length] at hk, ?_, (branchTarget_iff _ _ _).mp hb⟩
      rw [i1 k hk, hkw]; rfl
  · rintro ⟨i, d, hi, hid, ht⟩
    have hk : i < (wordsOf file).length := by rwa [wordsOf_length]
    have := i1 i hk
    rw [hid, List.getElem?_eq_getElem hk] at this
    simp only [Option.map_some', Option.some.injEq] at this
    subst this
    exact Or.inr ⟨i, _, List.getElem?_eq_getElem hk, (branchTarget_iff _ _ _).mpr ht⟩

/-- Witness for C8: in the two-word program `B +1; HALT` index 1 is marked and
is the target of the B at index 0. -/
theorem labels_iff_targeted_witness :
    load false (encode [335544321, 4292870144])
        = .ok ⟨[decodeFields 335544321, decodeFields 4292870144], [false, true], 2, []⟩ ∧
      ((⟨[decodeFields 335544321, decodeFields 4292870144], [false, true], 2, []⟩ :
          State).labels[1]? = some true ↔
        ∃ i d, i < (encode [335544321, 4292870144]).length / 4 ∧
          (⟨[decodeFields 335544321, decodeFields 4292870144], [false, true], 2, []⟩ :
            State).instructions[i]? = some d ∧ Targets d i 1) :=
  ⟨by decide, (labels_iff_targeted (encode [335544321, 4292870144])
    ⟨[decodeFields 335544321, decodeFields 4292870144], [false, true], 2, []⟩ (by decide)).2 1
    (by decide)⟩

theorem nameLabels_eq_namesFrom : ∀ (ls pre : List Bool) (k : Nat) (m : LabelMap),
    nameLabels (pre ++ ls) ls.length pre.length k m = some (namesFrom ls pre.length k m) := by
  intro ls
  induction ls with
  | nil => intro pre k m; rfl
  | cons b ls ih =>
    intro pre k m
    have hb : (pre ++ b :: ls)[pre.length]? = some b := by
      rw [List.getElem?_append_right (Nat.le_refl _)]; simp
    have e : pre ++ b :: ls = (pre ++ [b]) ++ ls := by simp
    have el : (pre ++ [b]).length = pre.length + 1 := by simp
    cases b with
    | true =>
      simp only [List.length_cons, nameLabels, hb, namesFrom]
      rw [e, ← el]
      exact ih (pre ++ [true]) (k + 1) _
    | false =>
      simp only [List.length_cons, nameLabels, hb, namesFrom]
      rw [e, ← el]
      exact ih (pre ++ [false]) k m

theorem nameLabels_total (labels : List Bool) :
    nameLabels labels labels.length 0 0 [] = some (namesFrom labels 0 0 []) := by
  simpa using nameLabels_eq_namesFrom labels [] 0 []

theorem markedFrom_range : ∀ (ls pre : List Bool),
    (List.range' pre.length ls.length).filter (fun i => (pre ++ ls)[i]? == some true)
      = markedFrom ls pre.length := by
  intro ls
  induction ls with
  | nil => intro pre; rfl
  | cons b ls ih =>
    intro pre
    have hb : (pre ++ b :: ls)[pre.length]? = some b := by
      rw [List.getElem?_append_right (Nat.le_refl _)]; simp
    have e : pre ++ b :: ls = (pre ++ [b]) ++ ls := by simp
    have el : (pre ++ [b]).length = pre.length + 1 := by simp
    have ih' := ih (pre ++ [b])
    rw [el, ← e] at ih'
    cases b with
    | true =>
      simp only [List.length_cons, List.range'_succ, markedFrom]
      rw [List.filter_cons_of_pos (by simp [hb]), ih']
    | false =>
      simp only [List.length_cons, List.range'_succ, markedFrom]
      rw [List.filter_cons_of_neg (by simp [hb]), ih']

theorem markedIndices_eq (labels : List Bool) : markedIndices labels = markedFrom labels 0 := by
  have := markedFrom_range labels []
  simpa [markedIndices, List.range_eq_range'] using this

theorem markedFrom_ge : ∀ (ls : List Bool) (i x : Nat), x ∈ markedFrom ls i → i ≤ x := by
  intro ls
  induction ls with
  | nil => intro i x h; simp [markedFrom] at h
  | cons b ls ih =>
    intro i x h
    cases b with
    | true =>
      simp only [markedFrom, List.mem_cons] at h
      rcases h with h | h
      · omega
      · have := ih _ _ h; omega
    | false =>
      simp only [markedFrom] at h
      have := ih _ _ h; omega

theorem namesFrom_find_other : ∀ (ls : List Bool) (i k : Nat) (m : LabelMap) (key : Int),
    (∀ x ∈ markedFrom ls i, key ≠ (x : Int)) →
      LabelMap.find? (namesFrom ls i k m) key = LabelMap.find? m key := by
  intro ls
  induction ls with
  | nil => intro i k m key _; rfl
  | cons b ls ih =>
    intro i k m key h
    cases b with
    | true =>
      simp only [markedFrom, List.mem_cons, forall_eq_or_imp] at h
      simp only [namesFrom]
      rw [ih _ _ _ _ h.2]
      simp only [LabelMap.find?, if_neg h.1]
    | false =>
      simp only [markedFrom] at h
      simp only [namesFrom]
      exact ih _ _ _ _ h

theorem namesFrom_find_marked : ∀ (ls : List Bool) (i k : Nat) (m : LabelMap) (j : Nat)
    (hj : j < (markedFrom ls i).length),
    LabelMap.find? (namesFrom ls i k m) (((markedFrom ls i)[j] : Nat) : Int)
      = some ("label" ++ toString (k + j)) := by
  intro ls
  induction ls with
  | nil => intro i k m j hj; simp [markedFrom] at hj
  | cons b ls ih =>
    intro i k m j hj
    cases b with
    | true =>
      simp only [markedFrom, namesFrom]
      cases j with
      | zero =>
        simp only [List.getElem_cons_zero, Nat.add_zero]
        rw [namesFrom_find_other]
        · simp [LabelMap.find?]
        · intro x hx
          have := markedFrom_ge _ _ _ hx
          omega
      | succ j =>
        simp only [List.getElem_cons_succ]
        rw [ih (i + 1) (k + 1) _ j (by simpa [markedFrom] using hj)]
        rw [show k + 1 + j = k + (j + 1) by omega]
    | false =>
      simp only [markedFrom, namesFrom]
      exact ih (i + 1) k m j (by simpa [markedFrom] using hj)

theorem mem_markedIndices (labels : List Bool) (i : Nat) :
    i ∈ markedIndices labels ↔ labels[i]? = some true := by
  simp only [markedIndices, List.mem_filter, List.mem_range, beq_iff_eq]
  constructor
  · intro h; exact h.2
  · intro h; exact ⟨(List.getElem?_eq_some_iff.mp h).1, h⟩

theorem markedIndices_ascending (labels : List Bool) :
    List.Pairwise (fun a b => a < b) (markedIndices labels) :=
  List.Pairwise.filter _ (List.pairwise_lt_range _)

theorem decode_lengths {printProgram : Bool} {w : Nat} {s s' : State}
    (h : decode printProgram w s = .ok s') :
    s'.instructions.length = s.instructions.length ∧ s'.labels.length = s.labels.length := by
  unfold decode at h
  simp only [markLabel] at h
  split_ifs at h <;> simp only [Exec.ok.injEq] at h <;> subst h <;> simp

theorem decodeAll_lengths (printProgram : Bool) : ∀ (ws : List Nat) (s s' : State),
    decodeAll printProgram ws s = .ok s' →
      s'.instructions.length = s.instructions.length ∧ s'.labels.length = s.labels.length := by
  intro ws
  induction ws with
  | nil =>
    intro s s' h
    simp only [decodeAll, Exec.ok.injEq] at h
    subst h
    exact ⟨rfl, rfl⟩
  | cons w ws ih =>
    intro s s' h
    obtain ⟨s1, h1, h2⟩ := decodeAll_cons_ok h
    obtain ⟨a1, a2⟩ := decode_lengths h1
    obtain ⟨b1, b2⟩ := ih s1 s' h2
    exact ⟨b1.trans a1, b2.trans a2⟩

theorem load_lengths {printProgram : Bool} {file : List Byte} {s : State}
    (h : load printProgram file = .ok s) :
    s.instructions.length = file.length / 4 ∧ s.labels.length = file.length / 4 := by
  unfold load at h
  rw [readLoop_eq] at h
  split_ifs at h
  · have := decodeAll_lengths _ _ _ _ h
    simpa [initState] using this
  · have := decodeAll_lengths _ _ _ _ h
    simpa [initState] using this

/-- C6: the naming pass of `printAssembly` completes and names exactly the
marked indices, in strictly ascending index order: with the marked indices
listed in ascending order, the one at position `j` is named `label<j>`, no
other key gets a name, and the map is a function of the labels slice alone, so
two loaded programs with equal `labels` get identical label maps. -/
theorem naming_pass_ascending (labels : List Bool) :
    ∃ labelMap, nameLabels labels labels.length 0 0 [] = some labelMap ∧
      (∀ i : Nat, i ∈ markedIndices labels ↔ labels[i]? = some true) ∧
      List.Pairwise (fun a b => a < b) (markedIndices labels) ∧
      (∀ (j : Nat) (hj : j < (markedIndices labels).length),
        LabelMap.find? labelMap (((markedIndices labels)[j] : Nat) : Int)
          = some ("label" ++ toString j)) ∧
      (∀ key : Int, (∀ i ∈ markedIndices labels, key ≠ (i : Int)) →
        LabelMap.find? labelMap key = none) ∧
      (∀ (p1 p2 : Bool) (file1 file2 : List Byte) (s1 s2 : State),
        load p1 file1 = .ok s1 → load p2 file2 = .ok s2 → s1.labels = s2.labels →
          nameLabels s1.labels s1.instructions.length 0 0 []
            = nameLabels s2.labels s2.instructions.length 0 0 []) := by
  refine ⟨namesFrom labels 0 0 [], nameLabels_total labels, mem_markedIndices labels,
    markedIndices_ascending labels, ?_, ?_, ?_⟩
  · intro j hj
    have hj' : j < (markedFrom labels 0).length := by rwa [← markedIndices_eq]
    have := namesFrom_find_marked labels 0 0 [] j hj'
    simp only [Nat.zero_add] at this
    simpa only [markedIndices_eq] using this
  · intro key hkey
    rw [namesFrom_find_other labels 0 0 [] key (by rwa [← markedIndices_eq])]
    rfl
  · intro p1 p2 file1 file2 s1 s2 h1 h2 he
    have l1 := load_lengths h1
    have l2 := load_lengths h2
    have : s1.instructions.length = s2.instructions.length := by
      rw [l1.1, ← l1.2, he, l2.2, ← l2.1]
    rw [this, he]

/-- Witness for C6: with flags `[false, true, false, true]` the marked indices
are 1 and 3; the second of them (position 1) is named `label1`. -/
theorem naming_pass_ascending_witness :
    ∃ labelMap, nameLabels [false, true, false, true] 4 0 0 [] = some labelMap ∧
      markedIndices [false, true, false, true] = [1, 3] ∧
      LabelMap.find? labelMap 3 = some "label1" ∧ LabelMap.find? labelMap 2 = none := by
  obtain ⟨labelMap, h1, _, _, h4, h5, _⟩ := naming_pass_ascending [false, true, false, true]
  exact ⟨labelMap, h1, by decide, h4 1 (by decide), h5 2 (by decide)⟩

theorem getCond_bad (n : Nat) (h : 13 < n) :
    getCondForOpcode n =
      ("", some ("Unhandled <cond> opcode (" ++ toString n ++ ") for instruction B.cond")) := by
  unfold getCondForOpcode
  repeat (rw [if_neg (by omega)])

theorem ite_cases {c : Prop} [Decidable c] {a b : Emit} (P : Emit → Prop)
    (ha : c → P a) (hb : ¬ c → P b) : P (if c then a else b) := by
  by_cases h : c
  · rw [if_pos h]; exact ha h
  · rw [if_neg h]; exact hb h

theorem render_line_of_recognised (labelMap : LabelMap) (i : Nat) (d : DecodedInstruction)
    (h : ¬ unrecognisedCond d) : ∃ l, renderInstruction labelMap i d = .line l := by
  unfold renderInstruction
  repeat' (first | exact ⟨_, rfl⟩ | (refine ite_cases (fun e => ∃ l, e = Emit.line l) ?_ ?_ <;> intro _))
  rename_i hc
  have hrd : d.rd ≤ 13 := by
    by_contra hn
    exact h ⟨hc, by omega⟩
  rw [specConds_getCond _ hrd]
  exact ⟨_, rfl⟩

theorem render_abort_of_unrecognised (labelMap : LabelMap) (i : Nat) (d : DecodedInstruction)
    (h : unrecognisedCond d) :
    renderInstruction labelMap i d = .abort
      ("Error: " ++ ("Unhandled <cond> opcode (" ++ toString d.rd
        ++ ") for instruction B.cond")) := by
  obtain ⟨⟨h1, h2⟩, h3⟩ := h
  unfold renderInstruction
  rw [getCond_bad _ h3]
  repeat (first | rw [if_pos (by omega)] | rw [if_neg (by omega)])
  try rfl

theorem printLoop_split (labels : List Bool) (labelMap : LabelMap) :
    ∀ (pre post : List DecodedInstruction) (i : Nat),
      (∀ d ∈ pre, ¬ unrecognisedCond d) → i + pre.length ≤ labels.length →
      printLoop labels labelMap i (pre ++ post) =
        (printLoop labels labelMap (i + pre.length) post).prepend (linesOf labels labelMap i pre) := by
  intro pre
  induction pre with
  | nil => intro post i _ _; simp [linesOf, Trace.prepend]
  | cons d pre ih =>
    intro post i hgood hlen
    simp only [List.length_cons] at hlen
    have hi : i < labels.length := by omega
    obtain ⟨l, hl⟩ := render_line_of_recognised labelMap i d (hgood d (by simp))
    have hm : labels[i]? = some (labels.getD i false) := by
      simp [List.getD_eq_getElem?_getD, List.getElem?_eq_getElem hi]
    rw [List.cons_append, printLoop_line hm hl,
      ih post (i + 1) (fun x hx => hgood x (by simp [hx])) (by omega)]
    simp only [Trace.prepend, linesOf, linesAt, hl, Emit.text, List.length_cons, List.append_assoc]
    rw [show i + 1 + pre.length = i + (pre.length + 1) by omega]

theorem StartsNotL.append {a : String} (b : String) (h : StartsNotL a) : StartsNotL (a ++ b) := by
  obtain ⟨c, cs, h1, h2⟩ := h
  exact ⟨c, cs ++ b.data, by rw [String.data_append, h1]; rfl, h2⟩

theorem StartsNotL.not_label {l : String} (h : StartsNotL l) : isLabelLine l = false := by
  obtain ⟨c, cs, h1, h2⟩ := h
  have : ("label".data.isPrefixOf l.data) = false := by
    rw [h1]
    show (('l' :: "abel".data).isPrefixOf (c :: cs)) = false
    simp only [List.isPrefixOf, Bool.and_eq_false_imp, beq_iff_eq]
    intro e
    exact absurd e.symm h2
  simp [isLabelLine, this]

theorem startsNotL_leaf_line {t : String} (h : StartsNotL t) :
    isLabelLine (Emit.line t).text = false :=
  StartsNotL.not_label h

theorem render_not_label (labelMap : LabelMap) (i : Nat) (d : DecodedInstruction) :
    isLabelLine (renderInstruction labelMap i d).text = false := by
  unfold renderInstruction
  repeat' (first
    | (refine ite_cases (fun e => isLabelLine e.text = false) ?_ ?_ <;> intro _)
    | (refine startsNotL_leaf_line ?_
       repeat (first | exact ⟨_, _, rfl, by decide⟩ | refine StartsNotL.append _ ?_)
       done)
    | (generalize getCondForOpcode d.rd = p
       obtain ⟨c, _ | e⟩ := p))

theorem label_decl_is_label (k : Nat) : isLabelLine ("label" ++ toString k ++ ":") = true := by
  have e : ("label" ++ toString k ++ ":").data = ("label".data ++ (toString k).data) ++ [':'] := by
    simp only [String.data_append]
  unfold isLabelLine
  rw [e, List.getLast?_concat, List.append_assoc]
  simp

/-! ## Whole runs in normal mode (C4) -/

theorem printAssembly_eq (s : State) (hlen : s.labels.length = s.instructions.length) :
    printAssembly s = printLoop s.labels (namesFrom s.labels 0 0 []) 0 s.instructions := by
  unfold printAssembly
  rw [← hlen, nameLabels_total]

theorem load_false_stdout {file : List Byte} {s : State} (h : load false file = .ok s) :
    s.stdout = [] := by
  obtain ⟨_, _, _, hs⟩ := decodeAll_false_shape _ _ _ (load_false_eq h)
  simpa [initState] using hs

theorem main_false_ok {file : List Byte} {s : State} (h : load false file = .ok s) :
    main false file = printLoop s.labels (namesFrom s.labels 0 0 []) 0 s.instructions := by
  have hl := load_lengths h
  unfold main
  rw [h]
  simp only [load_false_stdout h, Trace.prepend, List.nil_append]
  rw [printAssembly_eq s (by rw [hl.1, hl.2])]

theorem name_of_marked (labels : List Bool) (t : Nat) (h : labels[t]? = some true) :
    ∃ k : Nat, LabelMap.find? (namesFrom labels 0 0 []) (t : Int) = some ("label" ++ toString k) := by
  have hm : t ∈ markedFrom labels 0 := by
    rw [← markedIndices_eq]; exact (mem_markedIndices labels t).mpr h
  obtain ⟨j, hj, e⟩ := List.getElem_of_mem hm
  refine ⟨j, ?_⟩
  have := namesFrom_find_marked labels 0 0 [] j hj
  rw [e, Nat.zero_add] at this
  exact this

theorem get_of_find {m : LabelMap} {k : Int} {v : String} (h : LabelMap.find? m k = some v) :
    LabelMap.get m k = v := by
  simp [LabelMap.get, h]

theorem nonLabelCount_append (a b : List String) :
    nonLabelCount (a ++ b) = nonLabelCount a + nonLabelCount b := by
  simp [nonLabelCount, List.countP_append]

theorem nonLabelCount_linesAt (labels : List Bool) (i : Nat) (d : DecodedInstruction) :
    nonLabelCount (linesAt labels (namesFrom labels 0 0 []) i d) = 1 := by
  have hr := render_not_label (namesFrom labels 0 0 []) i d
  unfold linesAt labelDecl
  cases hm : labels.getD i false with
  | false => simp [nonLabelCount, hr]
  | true =>
    have hi : labels[i]? = some true := by
      rw [List.getD_eq_getElem?_getD] at hm
      cases hx : labels[i]? with
      | none => rw [hx] at hm; simp at hm
      | some b => rw [hx] at hm; simp at hm; rw [hm]
    obtain ⟨k, hk⟩ := name_of_marked labels i hi
    rw [get_of_find hk]
    simp [nonLabelCount, hr, label_decl_is_label k]

theorem nonLabelCount_linesOf (labels : List Bool) : ∀ (ds : List DecodedInstruction) (i : Nat),
    nonLabelCount (linesOf labels (namesFrom labels 0 0 []) i ds) = ds.length := by
  intro ds
  induction ds with
  | nil => intro i; rfl
  | cons d ds ih =>
    intro i
    rw [linesOf, nonLabelCount_append, nonLabelCount_linesAt, ih]
    simp [Nat.add_comm]

theorem printLoop_all (labels : List Bool) (labelMap : LabelMap) (ds : List DecodedInstruction)
    (hgood : ∀ d ∈ ds, ¬ unrecognisedCond d) (hlen : ds.length ≤ labels.length) :
    printLoop labels labelMap 0 ds = ⟨linesOf labels labelMap 0 ds, false⟩ := by
  have := printLoop_split labels labelMap ds [] 0 hgood (by omega)
  rw [List.append_nil] at this
  rw [this]
  simp [printLoop, Trace.prepend]

/-- C4, amended: for every input whose byte length is a multiple of 4, that
loads without failure and holds no B.cond with an unrecognised condition, the
run does not panic and the number of lines written that are not label
declarations equals the byte length divided by 4. -/
theorem nonlabel_lines_eq_words (file : List Byte) (s : State) (_ha : file.length % 4 = 0)
    (h : load false file = .ok s) (hgood : ∀ d ∈ s.instructions, ¬ unrecognisedCond d) :
    (main false file).panicked = false ∧
      nonLabelCount (main false file).lines = file.length / 4 := by
  have hl := load_lengths h
  rw [main_false_ok h, printLoop_all _ _ _ hgood (by rw [hl.1, hl.2])]
  exact ⟨rfl, by rw [nonLabelCount_linesOf, hl.1]⟩

/-- Witness for C4, amended: the two-word program `B +1; HALT` writes three
lines, two of which are not label declarations. -/
theorem nonlabel_lines_eq_words_witness :
    (main false (encode [335544321, 4292870144])).lines = ["B label0", "label0:", "HALT"] ∧
    (main false (encode [335544321, 4292870144])).panicked = false ∧
      nonLabelCount (main false (encode [335544321, 4292870144])).lines
        = (encode [335544321, 4292870144]).length / 4 :=
  ⟨by decide, nonlabel_lines_eq_words (encode [335544321, 4292870144])
    ⟨[decodeFields 335544321, decodeFields 4292870144], [false, true], 2, []⟩ (by decide)
    (by decide) (by decide)⟩

/-- Counterexample to C4 as stated: the 8-byte input `B.cond` (condition 14,
offset 0); `HALT` writes one label line and the error line only, so one
non-label line for two words; the 4-byte input `B +1` panics while loading and
writes nothing. -/
theorem nonlabel_lines_counterexample :
    ((encode [1409286158, 4292870144]).length % 4 = 0 ∧
      (main false (encode [1409286158, 4292870144])).lines
        = ["label0:", "Error: Unhandled <cond> opcode (14) for instruction B.cond"] ∧
      nonLabelCount (main false (encode [1409286158, 4292870144])).lines
        ≠ (encode [1409286158, 4292870144]).length / 4) ∧
    ((encode [335544321]).length % 4 = 0 ∧
      main false (encode [335544321]) = ⟨[], true⟩ ∧
      nonLabelCount (main false (encode [335544321])).lines ≠ (encode [335544321]).length / 4) := by
  decide

/-! ## The ADDI example (C10) -/

theorem wordOfBytes_bytesOfWord (w : Nat) (h : w < 2 ^ 32) (rest : List Byte) :
    wordsOf (bytesOfWord w ++ rest) = w :: wordsOf rest := by
  simp only [bytesOfWord, List.cons_append, List.nil_append, wordsOf, wordOfBytes]
  congr 1
  norm_num at h ⊢
  omega

theorem wordsOf_encode : ∀ ws : List Nat, (∀ w ∈ ws, w < 2 ^ 32) → wordsOf (encode ws) = ws := by
  intro ws
  induction ws with
  | nil => intro _; rfl
  | cons w ws ih =>
    intro h
    have e : encode (w :: ws) = bytesOfWord w ++ encode ws := by simp [encode]
    rw [e, wordOfBytes_bytesOfWord w (h w (by simp)), ih (fun x hx => h x (by simp [hx]))]

theorem encode_length (ws : List Nat) : (encode ws).length = 4 * ws.length := by
  induction ws with
  | nil => rfl
  | cons w ws ih =>
    have e : encode (w :: ws) = bytesOfWord w ++ encode ws := by simp [encode]
    rw [e, List.length_append, ih]
    simp [bytesOfWord]
    omega

theorem load_encode (printProgram : Bool) (ws : List Nat) (h : ∀ w ∈ ws, w < 2 ^ 32) :
    load printProgram (encode ws) = decodeAll printProgram ws (initState (encode ws)) := by
  unfold load
  rw [readLoop_eq, if_pos (by rw [encode_length]; omega), wordsOf_encode ws h]

theorem initState_encode (ws : List Nat) :
    initState (encode ws) = ⟨List.replicate ws.length DecodedInstruction.zero,
      List.replicate ws.length false, 0, []⟩ := by
  unfold initState
  rw [encode_length, Nat.mul_div_cancel_left _ (by decide)]

theorem decodeFields_addi (rd rn imm : Nat) (h1 : rd < 32) (h2 : rn < 32) (h3 : imm < 4096) :
    ((decodeFields (1160 * 2 ^ 21 + imm * 2 ^ 10 + rn * 2 ^ 5 + rd)).opcode = 1160 ∨
      (decodeFields (1160 * 2 ^ 21 + imm * 2 ^ 10 + rn * 2 ^ 5 + rd)).opcode = 1161) ∧
    (decodeFields (1160 * 2 ^ 21 + imm * 2 ^ 10 + rn * 2 ^ 5 + rd)).rd = rd ∧
    (decodeFields (1160 * 2 ^ 21 + imm * 2 ^ 10 + rn * 2 ^ 5 + rd)).rn = rn ∧
    (decodeFields (1160 * 2 ^ 21 + imm * 2 ^ 10 + rn * 2 ^ 5 + rd)).immediate = imm := by
  rw [opcode_eq, rd_eq, rn_eq, immediate_eq]
  norm_num
  omega

/-- C10: for rd < 32, rn < 32 and immediate < 4096 the one-word program whose
word is `1160 * 2^21 + immediate * 2^10 + rn * 2^5 + rd` renders, without
panic, the single line `ADDI X<rd>, X<rn>, #<immediate>`. -/
theorem addi_program_renders (rd rn imm : Nat) (h1 : rd < 32) (h2 : rn < 32) (h3 : imm < 4096) :
    main false (encode [1160 * 2 ^ 21 + imm * 2 ^ 10 + rn * 2 ^ 5 + rd]) =
      ⟨["ADDI X" ++ toString rd ++ ", X" ++ toString rn ++ ", #" ++ toString imm], false⟩ := by
  obtain ⟨ho, hrd, hrn, himm⟩ := decodeFields_addi rd rn imm h1 h2 h3
  have hw : ∀ w ∈ [1160 * 2 ^ 21 + imm * 2 ^ 10 + rn * 2 ^ 5 + rd], w < 2 ^ 32 := by
    intro w hw
    simp only [List.mem_singleton] at hw
    subst hw
    norm_num
    omega
  have hload : load false (encode [1160 * 2 ^ 21 + imm * 2 ^ 10 + rn * 2 ^ 5 + rd]) =
      .ok ⟨[decodeFields (1160 * 2 ^ 21 + imm * 2 ^ 10 + rn * 2 ^ 5 + rd)], [false], 1, []⟩ := by
    rw [load_encode false _ hw, initState_encode]
    simp only [decodeAll, decode, List.length_singleton, List.replicate, Bool.false_eq_true,
      if_false]
    rw [if_pos (by decide), if_neg (by omega), if_neg (by omega)]
    rfl
  rw [main_false_ok hload]
  have hl : renderInstruction (namesFrom [false] 0 0 []) 0
      (decodeFields (1160 * 2 ^ 21 + imm * 2 ^ 10 + rn * 2 ^ 5 + rd)) =
      .line ("ADDI X" ++ toString rd ++ ", X" ++ toString rn ++ ", #" ++ toString imm) := by
    unfold renderInstruction
    rw [if_neg (by omega), if_pos ho, hrd, hrn, himm]
  rw [printLoop_line (show [false][0]? = some false from rfl) hl]
  rfl

/-- Witness for C10: rd = 3, rn = 2, immediate = 10 gives `ADDI X3, X2, #10`. -/
theorem addi_program_renders_witness :
    main false (encode [1160 * 2 ^ 21 + 10 * 2 ^ 10 + 2 * 2 ^ 5 + 3]) =
      ⟨["ADDI X3, X2, #10"], false⟩ :=
  addi_program_renders 3 2 10 (by decide) (by decide) (by decide)

/-! ## Unhandled opcodes (C9) -/

theorem render_unhandled (labelMap : LabelMap) (i : Nat) (d : DecodedInstruction)
    (hno : matchesNoRow d.opcode) :
    renderInstruction labelMap i d =
      .line ("Unhandled instruction; opcode in decimal: " ++ toString d.opcode) := by
  simp only [matchesNoRow, specTable, List.mem_cons, List.mem_singleton, List.not_mem_nil,
    or_false, forall_eq_or_imp, forall_eq] at hno
  unfold renderInstruction
  repeat (rw [if_neg (by omega)])

/-- C9, amended: for every opcode that matches no row of the opcode table the
line rendered is exactly `Unhandled instruction; opcode in decimal: <opcode>`,
and rendering does not stop there: the loop goes on with the next index, and
the later instructions get their own lines (after a label declaration where
marked) for as long as none of them is a B.cond with an unrecognised
condition. -/
theorem unhandled_opcode_continues (labels : List Bool) (labelMap : LabelMap) (i : Nat)
    (d : DecodedInstruction) (pre post : List DecodedInstruction) (marked : Bool)
    (hno : matchesNoRow d.opcode) (hm : labels[i]? = some marked)
    (hgood : ∀ x ∈ pre, ¬ unrecognisedCond x) (hlen : i + 1 + pre.length ≤ labels.length) :
    renderInstruction labelMap i d =
      .line ("Unhandled instruction; opcode in decimal: " ++ toString d.opcode) ∧
    printLoop labels labelMap i (d :: (pre ++ post)) =
      (printLoop labels labelMap (i + 1 + pre.length) post).prepend
        (labelDecl labelMap i marked
          ++ ["Unhandled instruction; opcode in decimal: " ++ toString d.opcode]
          ++ linesOf labels labelMap (i + 1) pre) := by
  have hl := render_unhandled labelMap i d hno
  refine ⟨hl, ?_⟩
  rw [printLoop_line hm hl, printLoop_split labels labelMap pre post (i + 1) hgood hlen]
  simp [Trace.prepend]

/-- Witness for C9, amended: opcode 999 followed by `HALT`. -/
theorem unhandled_opcode_continues_witness :
    renderInstruction [] 0 (decodeFields 2095054848) =
      .line "Unhandled instruction; opcode in decimal: 999" ∧
    printLoop [false, false] [] 0 [decodeFields 2095054848, decodeFields 4292870144] =
      ⟨["Unhandled instruction; opcode in decimal: 999", "HALT"], false⟩ :=
  unhandled_opcode_continues [false, false] [] 0 (decodeFields 2095054848)
    [decodeFields 4292870144] [] false (by decide) (by decide) (by decide) (by decide)

/-- Counterexample to C9 as stated: in the three-word program "opcode 999;
B.cond with condition 14 and offset 0; HALT" the unhandled line is written, but
the B.cond aborts the rendering and the later HALT gets no line. -/
theorem unhandled_opcode_counterexample :
    matchesNoRow (decodeFields 2095054848).opcode ∧
    main false (encode [2095054848, 1409286158, 4292870144]) =
      ⟨["Unhandled instruction; opcode in decimal: 999", "label0:",
        "Error: Unhandled <cond> opcode (14) for instruction B.cond"], false⟩ ∧
    "HALT" ∉ (main false (encode [2095054848, 1409286158, 4292870144])).lines := by
  decide

/-! ## The B round trip (C5) -/

theorem split_at_index {α : Type} (l : List α) (i : Nat) (x : α) (h : l[i]? = some x) :
    l = l.take i ++ x :: l.drop (i + 1) ∧ (l.take i).length = i := by
  obtain ⟨hi, hx⟩ := List.getElem?_eq_some_iff.mp h
  constructor
  · conv_lhs => rw [← List.take_append_drop i l]
    rw [List.drop_eq_getElem_cons hi, hx]
  · rw [List.length_take]; omega

theorem printLoop_head (labels : List Bool) (labelMap : LabelMap) (i : Nat)
    (d : DecodedInstruction) (rest : List DecodedInstruction) (marked : Bool)
    (hm : labels[i]? = some marked) :
    ∃ tail, (printLoop labels labelMap i (d :: rest)).lines =
      labelDecl labelMap i marked ++ (renderInstruction labelMap i d).text :: tail := by
  cases hr : renderInstruction labelMap i d with
  | line l =>
    exact ⟨(printLoop labels labelMap (i + 1) rest).lines, by
      rw [printLoop_line hm hr]; simp [Trace.prepend, Emit.text]⟩
  | abort e =>
    exact ⟨[], by simp [printLoop, hm, hr, Emit.text]⟩

/-- What loading establishes about a B instruction at index `i`: its target is
an index of the program and is marked. -/
theorem b_target_marked {file : List Byte} {s : State} (h : load false file = .ok s) {i : Nat}
    {d : DecodedInstruction} (hi : s.instructions[i]? = some d)
    (hop : 160 ≤ d.opcode ∧ d.opcode ≤ 191) :
    ∃ t : Nat, (t : Int) = (i : Int) + d.bAddress ∧ t < s.labels.length ∧
      s.labels[t]? = some true := by
  have hd := load_false_eq h
  obtain ⟨l1, l2⟩ := decodeAll_false_labels _ _ _ hd
  obtain ⟨i1, _⟩ := decodeAll_false_instructions _ _ _ hd
  obtain ⟨_, hilen, hllen, _⟩ := decodeAll_false_shape _ _ _ hd
  have hidx : (initState file).instructionIndex = 0 := rfl
  simp only [hidx, Nat.zero_add] at i1 l1 l2
  have hiN : i < (wordsOf file).length := by
    have := (List.getElem?_eq_some_iff.mp hi).1
    rw [hilen] at this
    simpa [initState, wordsOf_length] using this
  have hw := i1 i hiN
  rw [hi, List.getElem?_eq_getElem hiN] at hw
  simp only [Option.map_some', Option.some.injEq] at hw
  have hb : branchTarget (decodeFields (wordsOf file)[i]) i = some ((i : Int) + d.bAddress) := by
    rw [← hw]
    unfold branchTarget
    rw [if_pos (Or.inl hop)]
  obtain ⟨t0, tl⟩ := l2 i _ _ (List.getElem?_eq_getElem hiN) hb
  refine ⟨((i : Int) + d.bAddress).toNat, Int.toNat_of_nonneg t0, ?_, ?_⟩
  · rw [hllen]; omega
  · rw [l1]
    exact Or.inr ⟨i, _, List.getElem?_eq_getElem hiN, by rw [hb, Int.toNat_of_nonneg t0]⟩

/-- C5, amended: for every program loaded without failure and every index `i`
holding a B instruction (opcode 160..191) with `t = i + bAddress`: after
loading, `t` is an index of the program and is marked; the naming pass gives
`t` a name `label<k>`, and the opcode chain renders instruction `i` as `B `
followed by that name; when no B.cond with an unrecognised condition sits
below index `i`, the output is the lines of the indices below `i`, then the
label declaration of `i` if marked, then that B line, then the rest of the
rendering; and when none sits below index `t`, the output is the lines of the
indices below `t`, then the declaration `label<k>:`, immediately followed by
the line written for instruction `t`. -/
theorem b_line_names_declared_label (file : List Byte) (s : State)
    (h : load false file = .ok s) (i : Nat) (d : DecodedInstruction)
    (hi : s.instructions[i]? = some d) (hop : 160 ≤ d.opcode ∧ d.opcode ≤ 191) :
    ∃ (t k : Nat) (labelMap : LabelMap) (dt : DecodedInstruction) (marked : Bool),
      (t : Int) = (i : Int) + d.bAddress ∧ s.labels[t]? = some true ∧
      s.instructions[t]? = some dt ∧ s.labels[i]? = some marked ∧
      nameLabels s.labels s.instructions.length 0 0 [] = some labelMap ∧
      LabelMap.find? labelMap (t : Int) = some ("label" ++ toString k) ∧
      renderInstruction labelMap i d = .line ("B " ++ ("label" ++ toString k)) ∧
      ((∀ j x, j < i → s.instructions[j]? = some x → ¬ unrecognisedCond x) →
        (main false file).lines =
          linesOf s.labels labelMap 0 (s.instructions.take i)
            ++ labelDecl labelMap i marked ++ ["B " ++ ("label" ++ toString k)]
            ++ (printLoop s.labels labelMap (i + 1) (s.instructions.drop (i + 1))).lines) ∧
      ((∀ j x, j < t → s.instructions[j]? = some x → ¬ unrecognisedCond x) →
        ∃ tail, (main false file).lines =
          linesOf s.labels labelMap 0 (s.instructions.take t)
            ++ ["label" ++ toString k ++ ":", (renderInstruction labelMap t dt).text] ++ tail) := by
  obtain ⟨t, ht, htl, htm⟩ := b_target_marked h hi hop
  obtain ⟨k, hk⟩ := name_of_marked s.labels t htm
  have hl := load_lengths h
  have hlen : s.labels.length = s.instructions.length := by rw [hl.1, hl.2]
  have hil : i < s.labels.length := by
    rw [hlen]; exact (List.getElem?_eq_some_iff.mp hi).1
  have hr : renderInstruction (namesFrom s.labels 0 0 []) i d
      = .line ("B " ++ ("label" ++ toString k)) := by
    unfold renderInstruction
    rw [if_neg (by omega), if_neg (by omega), if_neg (by omega), if_neg (by omega), if_pos hop,
      ← ht, get_of_find hk]
  have good_take : ∀ n : Nat, (∀ j x, j < n → s.instructions[j]? = some x → ¬ unrecognisedCond x) →
      ∀ x ∈ s.instructions.take n, ¬ unrecognisedCond x := by
    intro n hn x hx
    obtain ⟨j, hj, e⟩ := List.getElem_of_mem hx
    rw [List.getElem_take] at e
    rw [List.length_take] at hj
    exact hn j x (by omega) (by rw [← e]; exact List.getElem?_eq_getElem (by omega))
  have htI : t < s.instructions.length := by rw [← hlen]; exact htl
  refine ⟨t, k, namesFrom s.labels 0 0 [], s.instructions[t], s.labels[i], ht, htm,
    List.getElem?_eq_getElem _, List.getElem?_eq_getElem _,
    by rw [← hlen]; exact nameLabels_total s.labels, hk, hr, ?_, ?_⟩
  · intro hgood
    obtain ⟨hsplit, htake⟩ := split_at_index s.instructions i d hi
    rw [main_false_ok h]
    conv_lhs => rw [hsplit]
    rw [printLoop_split _ _ _ _ 0 (good_take i hgood) (by rw [htake]; omega), htake,
      Nat.zero_add, printLoop_line (List.getElem?_eq_getElem hil) hr]
    simp [Trace.prepend]
  · intro hgood
    obtain ⟨hsplit, htake⟩ := split_at_index s.instructions t _ (List.getElem?_eq_getElem htI)
    obtain ⟨tail, htail⟩ := printLoop_head s.labels (namesFrom s.labels 0 0 []) t
      s.instructions[t] (s.instructions.drop (t + 1)) true htm
    refine ⟨tail, ?_⟩
    rw [main_false_ok h]
    conv_lhs => rw [hsplit]
    rw [printLoop_split _ _ _ _ 0 (good_take t hgood) (by rw [htake]; omega), htake,
      Nat.zero_add]
    simp only [Trace.prepend, htail, labelDecl, if_true, get_of_find hk]
    simp

/-- Witness for C5, amended: five `HALT`, then `B +2` at index 5, then two
`HALT`; index 7 is marked, named `label0`, declared just before the last line,
and the B line at index 5 reads `B label0`. -/
theorem b_line_names_declared_label_witness :
    (main false (encode [4292870144, 4292870144, 4292870144, 4292870144, 4292870144,
        335544322, 4292870144, 4292870144])).lines =
      ["HALT", "HALT", "HALT", "HALT", "HALT", "B label0", "HALT", "label0:", "HALT"] ∧
    ∃ t k : Nat, (t : Int) = (5 : Int) + (decodeFields 335544322).bAddress ∧
      [false, false, false, false, false, false, false, true][t]? = some true ∧
      renderInstruction [((7 : Int), "label0")] 5 (decodeFields 335544322) =
        .line ("B " ++ ("label" ++ toString k)) := by
  refine ⟨by decide, ?_⟩
  obtain ⟨t, k, labelMap, dt, marked, h1, h2, _, _, h5, _, h7, _, _⟩ :=
    b_line_names_declared_label
      (encode [4292870144, 4292870144, 4292870144, 4292870144, 4292870144,
        335544322, 4292870144, 4292870144])
      ⟨[decodeFields 4292870144, decodeFields 4292870144, decodeFields 4292870144,
        decodeFields 4292870144, decodeFields 4292870144, decodeFields 335544322,
        decodeFields 4292870144, decodeFields 4292870144],
       [false, false, false, false, false, false, false, true], 8, []⟩
      (by decide) 5 (decodeFields 335544322) (by decide) (by decide)
  have e : labelMap = [((7 : Int), "label0")] := by
    have : nameLabels [false, false, false, false, false, false, false, true] 8 0 0 []
        = some [((7 : Int), "label0")] := by decide
    have h5' : nameLabels [false, false, false, false, false, false, false, true] 8 0 0 []
        = some labelMap := h5
    rw [this] at h5'
    exact (Option.some.inj h5').symm
  exact ⟨t, k, h1, h2, by rw [← e]; exact h7⟩

/-- Counterexample to C5 as stated: the two-word program "B.cond with condition
14 and offset 0; B with offset 0" loads without failure, index 1 holds a B
whose target 1 is marked and named `label1`, but the rendering is aborted at
index 0: neither the line `B label1` nor the declaration `label1:` is
written. -/
theorem b_line_counterexample :
    load false (encode [1409286158, 335544320]) =
      .ok ⟨[decodeFields 1409286158, decodeFields 335544320], [true, true], 2, []⟩ ∧
    (160 ≤ (decodeFields 335544320).opcode ∧ (decodeFields 335544320).opcode ≤ 191) ∧
    (1 : Int) + (decodeFields 335544320).bAddress = 1 ∧
    nameLabels [true, true] 2 0 0 [] = some [((1 : Int), "label1"), ((0 : Int), "label0")] ∧
    main false (encode [1409286158, 335544320]) =
      ⟨["label0:", "Error: Unhandled <cond> opcode (14) for instruction B.cond"], false⟩ ∧
    "B label1" ∉ (main false (encode [1409286158, 335544320])).lines ∧
    "label1:" ∉ (main false (encode [1409286158, 335544320])).lines := by
  decide

/-! ## Loaded records and the HALT example (C11, C13) -/

theorem wordsOf_getElem? (file : List Byte) : ∀ i : Nat, i < (wordsOf file).length →
    ∃ b0 b1 b2 b3, file[4 * i]? = some b0 ∧ file[4 * i + 1]? = some b1 ∧
      file[4 * i + 2]? = some b2 ∧ file[4 * i + 3]? = some b3 ∧
      (wordsOf file)[i]? = some (wordOfBytes b0 b1 b2 b3) := by
  induction file using wordsOf.induct with
  | case1 b0 b1 b2 b3 rest ih =>
    intro i hi
    cases i with
    | zero => exact ⟨b0, b1, b2, b3, by simp, by simp, by simp, by simp, by simp [wordsOf]⟩
    | succ i =>
      simp only [wordsOf, List.length_cons, Nat.add_lt_add_iff_right] at hi
      obtain ⟨c0, c1, c2, c3, h0, h1, h2, h3, hw⟩ := ih i hi
      refine ⟨c0, c1, c2, c3, ?_, ?_, ?_, ?_, by simpa [wordsOf] using hw⟩
      · rw [show 4 * (i + 1) = 4 * i + 1 + 1 + 1 + 1 by omega]; simpa using h0
      · rw [show 4 * (i + 1) + 1 = 4 * i + 1 + 1 + 1 + 1 + 1 by omega]; simpa using h1
      · rw [show 4 * (i + 1) + 2 = 4 * i + 2 + 1 + 1 + 1 + 1 by omega]; simpa using h2
      · rw [show 4 * (i + 1) + 3 = 4 * i + 3 + 1 + 1 + 1 + 1 by omega]; simpa using h3
  | case2 file hne =>
    intro i hi
    have : wordsOf file = [] := by
      unfold wordsOf
      split
      · rename_i b0 b1 b2 b3 rest
        exact absurd rfl (hne b0 b1 b2 b3 rest)
      · rfl
    rw [this] at hi
    simp at hi

/-- C11: the 4-byte input FF E0 00 00 (opcode 2047, every other bit zero)
loads as a one-instruction program with no marked label, and the whole output
of the run is the single line `HALT`. -/
theorem halt_example :
    ([0xFF, 0xE0, 0x00, 0x00] : List Byte) = encode [2047 * 2 ^ 21] ∧
    load false [0xFF, 0xE0, 0x00, 0x00] = .ok ⟨[decodeFields (2047 * 2 ^ 21)], [false], 1, []⟩ ∧
    (decodeFields (2047 * 2 ^ 21)).opcode = 2047 ∧
    main false [0xFF, 0xE0, 0x00, 0x00] = ⟨["HALT"], false⟩ := by
  decide

/-- C13: after an input has been loaded without failure in normal mode, with
`N` the byte length divided by 4, the instructions collection has length `N`,
`instructionIndex` equals `N`, and for every `i < N` the record at index `i`
holds the fields extracted from the big-endian word made of the bytes
`4 i .. 4 i + 3` of the input. -/
theorem loaded_records_in_order (file : List Byte) (s : State) (h : load false file = .ok s) :
    s.instructions.length = file.length / 4 ∧ s.instructionIndex = file.length / 4 ∧
    ∀ i : Nat, i < file.length / 4 →
      ∃ b0 b1 b2 b3, file[4 * i]? = some b0 ∧ file[4 * i + 1]? = some b1 ∧
        file[4 * i + 2]? = some b2 ∧ file[4 * i + 3]? = some b3 ∧
        s.instructions[i]? = some (decodeFields (wordOfBytes b0 b1 b2 b3)) := by
  have hd := load_false_eq h
  obtain ⟨hidx, hilen, _, _⟩ := decodeAll_false_shape _ _ _ hd
  obtain ⟨i1, _⟩ := decodeAll_false_instructions _ _ _ hd
  have h0 : (initState file).instructionIndex = 0 := rfl
  simp only [h0, Nat.zero_add] at i1 hidx
  refine ⟨by simpa [initState] using hilen, by rw [hidx, wordsOf_length], ?_⟩
  intro i hi
  have hi' : i < (wordsOf file).length := by rwa [wordsOf_length]
  obtain ⟨b0, b1, b2, b3, e0, e1, e2, e3, hw⟩ := wordsOf_getElem? file i hi'
  exact ⟨b0, b1, b2, b3, e0, e1, e2, e3, by rw [i1 i hi', hw]; rfl⟩

/-- Witness for C13: the two-word program `B +1; HALT`. -/
theorem loaded_records_in_order_witness :
    load false (encode [335544321, 4292870144])
        = .ok ⟨[decodeFields 335544321, decodeFields 4292870144], [false, true], 2, []⟩ ∧
    (⟨[decodeFields 335544321, decodeFields 4292870144], [false, true], 2, []⟩ :
        State).instructions.length = (encode [335544321, 4292870144]).length / 4 ∧
    (⟨[decodeFields 335544321, decodeFields 4292870144], [false, true], 2, []⟩ :
        State).instructionIndex = (encode [335544321, 4292870144]).length / 4 :=
  ⟨by decide,
    (loaded_records_in_order (encode [335544321, 4292870144])
      ⟨[decodeFields 335544321, decodeFields 4292870144], [false, true], 2, []⟩ (by decide)).1,
    (loaded_records_in_order (encode [335544321, 4292870144])
      ⟨[decodeFields 335544321, decodeFields 4292870144], [false, true], 2, []⟩ (by decide)).2.1⟩

/-! ## Offsets, overlapping fields, panics and aborts (C12, C15 to C18, C20) -/

theorem decode_false_branch {w : Nat} {s : State} {t : Int}
    (hidx : s.instructionIndex < s.instructions.length)
    (hb : branchTarget (decodeFields w) s.instructionIndex = some t)
    (h0 : 0 ≤ t) (h1 : t < (s.labels.length : Int)) :
    decode false w s = .ok
      { instructions := s.instructions.set s.instructionIndex (decodeFields w)
        labels := s.labels.set t.toNat true
        instructionIndex := s.instructionIndex + 1
        stdout := s.stdout } := by
  unfold branchTarget at hb
  unfold decode
  simp only [Bool.false_eq_true, if_false, if_pos hidx, markLabel]
  split_ifs at hb with c1 c2
  · simp only [Option.some.injEq] at hb
    rw [if_pos c1, hb, if_pos ⟨h0, h1⟩]
  · simp only [Option.some.injEq] at hb
    rw [if_neg c1, if_pos c2, hb, if_pos ⟨h0, h1⟩]

theorem decode_false_branch_panic {w : Nat} {s : State} {t : Int}
    (hidx : s.instructionIndex < s.instructions.length)
    (hb : branchTarget (decodeFields w) s.instructionIndex = some t)
    (hout : t < 0 ∨ (s.labels.length : Int) ≤ t) :
    decode false w s = .panic s.stdout := by
  unfold branchTarget at hb
  unfold decode
  simp only [Bool.false_eq_true, if_false, if_pos hidx, markLabel]
  have hn : ¬ (0 ≤ t ∧ t < (s.labels.length : Int)) := by omega
  split_ifs at hb with c1 c2
  · simp only [Option.some.injEq] at hb
    rw [if_pos c1, hb, if_neg hn]
  · simp only [Option.some.injEq] at hb
    rw [if_neg c1, if_pos c2, hb, if_neg hn]

theorem toInt16_twosComplement (x : Nat) (d : Int) (bits : Nat) (hb : 16 ≤ bits)
    (hlo : -32768 ≤ d) (hhi : d ≤ 32767) (hx : x = twosComplement bits d) : toInt16 x = d := by
  obtain ⟨k, rfl⟩ : ∃ k, bits = 16 + k := ⟨bits - 16, by omega⟩
  unfold twosComplement at hx
  have hp : (0 : Int) < 2 ^ (16 + k) := by positivity
  have hnn : 0 ≤ d % 2 ^ (16 + k) := Int.emod_nonneg _ (ne_of_gt hp)
  have hdvd : (65536 : Int) ∣ 2 ^ (16 + k) := ⟨2 ^ k, by rw [pow_add]; norm_num⟩
  have hx' : (x : Int) = d % 2 ^ (16 + k) := by rw [hx, Int.toNat_of_nonneg hnn]
  have hm : (x : Int) % 65536 = d % 65536 := by
    rw [hx', Int.emod_emod_of_dvd _ hdvd]
  unfold toInt16
  split_ifs with h <;> omega

/-- C18: the cut to 16 bits still decodes every offset that fits in 16 signed
bits. For `-32768 ≤ d ≤ 32767`: when bits 0..25 of `w` hold the 26-bit
two's-complement pattern of `d`, `decode` gives bAddress `d`; when bits 5..23
hold the 19-bit pattern of `d`, it gives cbAddress `d`; and a branch decoded at
an index `i` with `i + d` inside the program completes and marks exactly index
`i + d` (also for negative `d`). -/
theorem small_offsets_survive (d : Int) (w : Nat) (hlo : -32768 ≤ d) (hhi : d ≤ 32767) :
    (w % 2 ^ 26 = twosComplement 26 d → (decodeFields w).bAddress = d) ∧
    (w / 2 ^ 5 % 2 ^ 19 = twosComplement 19 d → (decodeFields w).cbAddress = d) ∧
    (∀ s : State, w % 2 ^ 26 = twosComplement 26 d →
      ((160 ≤ (decodeFields w).opcode ∧ (decodeFields w).opcode ≤ 191) ∨
        (1184 ≤ (decodeFields w).opcode ∧ (decodeFields w).opcode ≤ 1215)) →
      s.instructionIndex < s.instructions.length →
      0 ≤ (s.instructionIndex : Int) + d → (s.instructionIndex : Int) + d < s.labels.length →
      decode false w s = .ok
        { instructions := s.instructions.set s.instructionIndex (decodeFields w)
          labels := s.labels.set ((s.instructionIndex : Int) + d).toNat true
          instructionIndex := s.instructionIndex + 1
          stdout := s.stdout }) ∧
    (∀ s : State, w / 2 ^ 5 % 2 ^ 19 = twosComplement 19 d →
      ((672 ≤ (decodeFields w).opcode ∧ (decodeFields w).opcode ≤ 679) ∨
        (1448 ≤ (decodeFields w).opcode ∧ (decodeFields w).opcode ≤ 1455) ∨
        (1440 ≤ (decodeFields w).opcode ∧ (decodeFields w).opcode ≤ 1447)) →
      s.instructionIndex < s.instructions.length →
      0 ≤ (s.instructionIndex : Int) + d → (s.instructionIndex : Int) + d < s.labels.length →
      decode false w s = .ok
        { instructions := s.instructions.set s.instructionIndex (decodeFields w)
          labels := s.labels.set ((s.instructionIndex : Int) + d).toNat true
          instructionIndex := s.instructionIndex + 1
          stdout := s.stdout }) := by
  have hB : w % 2 ^ 26 = twosComplement 26 d → (decodeFields w).bAddress = d := by
    intro h
    rw [bAddress_eq]
    exact toInt16_twosComplement _ d 26 (by omega) hlo hhi h
  have hCB : w / 2 ^ 5 % 2 ^ 19 = twosComplement 19 d → (decodeFields w).cbAddress = d := by
    intro h
    rw [cbAddress_eq]
    exact toInt16_twosComplement _ d 19 (by omega) hlo hhi h
  refine ⟨hB, hCB, ?_, ?_⟩
  · intro s henc hop hidx h0 h1
    refine decode_false_branch hidx ?_ h0 h1
    unfold branchTarget
    rw [if_pos hop, hB henc]
  · intro s henc hop hidx h0 h1
    refine decode_false_branch hidx ?_ h0 h1
    unfold branchTarget
    rw [if_neg (by omega), if_pos hop, hCB henc]

/-- Witness for C18: the word `0x17FFFFFF` is a B whose 26-bit field encodes
`-1`; decoded at index 1 of a two-slot program it marks index 0. -/
theorem small_offsets_survive_witness :
    402653183 % 2 ^ 26 = twosComplement 26 (-1) ∧
    (decodeFields 402653183).bAddress = -1 ∧
    decode false 402653183
        ⟨[DecodedInstruction.zero, DecodedInstruction.zero], [false, false], 1, []⟩ =
      .ok ⟨[DecodedInstruction.zero, decodeFields 402653183], [true, false], 2, []⟩ := by
  refine ⟨by decide, (small_offsets_survive (-1) 402653183 (by decide) (by decide)).1 (by decide), ?_⟩
  have h := (small_offsets_survive (-1) 402653183 (by decide) (by decide)).2.2.1
    ⟨[DecodedInstruction.zero, DecodedInstruction.zero], [false, false], 1, []⟩
    (by decide) (by decide) (by decide) (by decide) (by decide)
  rw [h]
  decide

theorem toString_natCast (n : Nat) : toString ((n : Nat) : Int) = toString n := rfl

/-- C20: the opcode and immediate fields share bit 21 of the word, and
dAddress is never sign-extended. For every word: immediate ≥ 2048 exactly when
the opcode is odd; so an instruction decoded with opcode 1161 is printed as an
ADDI whose immediate lies in 2048..4095, and with opcode 1160 as one whose
immediate lies in 0..2047; dAddress lies in 0..511, and the offset printed by
LDUR and STUR is that unsigned value. -/
theorem immediate_opcode_overlap (w : Nat) :
    (2048 ≤ (decodeFields w).immediate ↔ (decodeFields w).opcode % 2 = 1) ∧
    (0 ≤ (decodeFields w).dAddress ∧ (decodeFields w).dAddress ≤ 511) ∧
    (∀ (labelMap : LabelMap) (i : Nat), (decodeFields w).opcode = 1161 →
      renderInstruction labelMap i (decodeFields w) =
        .line ("ADDI X" ++ toString (decodeFields w).rd ++ ", X" ++ toString (decodeFields w).rn
          ++ ", #" ++ toString (decodeFields w).immediate) ∧
      2048 ≤ (decodeFields w).immediate ∧ (decodeFields w).immediate ≤ 4095) ∧
    (∀ (labelMap : LabelMap) (i : Nat), (decodeFields w).opcode = 1160 →
      renderInstruction labelMap i (decodeFields w) =
        .line ("ADDI X" ++ toString (decodeFields w).rd ++ ", X" ++ toString (decodeFields w).rn
          ++ ", #" ++ toString (decodeFields w).immediate) ∧
      (decodeFields w).immediate ≤ 2047) ∧
    (∀ (labelMap : LabelMap) (i : Nat), (decodeFields w).opcode = 1986 →
      renderInstruction labelMap i (decodeFields w) =
        .line ("LDUR X" ++ toString (decodeFields w).rd ++ ", [X" ++ toString (decodeFields w).rn
          ++ ", #" ++ toString (w / 2 ^ 12 % 2 ^ 9) ++ "]")) ∧
    (∀ (labelMap : LabelMap) (i : Nat), (decodeFields w).opcode = 1984 →
      renderInstruction labelMap i (decodeFields w) =
        .line ("STUR X" ++ toString (decodeFields w).rd ++ ", [X" ++ toString (decodeFields w).rn
          ++ ", #" ++ toString (w / 2 ^ 12 % 2 ^ 9) ++ "]")) := by
  have hiff : 2048 ≤ (decodeFields w).immediate ↔ (decodeFields w).opcode % 2 = 1 := by
    rw [immediate_eq, opcode_eq]
    norm_num
    omega
  have himm : (decodeFields w).immediate ≤ 4095 := by
    rw [immediate_eq]; omega
  have hd : (decodeFields w).dAddress = ((w / 2 ^ 12 % 2 ^ 9 : Nat) : Int) := by
    rw [dAddress_eq]
    unfold toInt16
    have e : w / 2 ^ 12 % 2 ^ 9 % 65536 = w / 2 ^ 12 % 2 ^ 9 := by norm_num; omega
    have l : w / 2 ^ 12 % 2 ^ 9 < 32768 := by norm_num; omega
    rw [e, if_pos l]
  refine ⟨hiff, ?_, ?_, ?_, ?_, ?_⟩
  · rw [hd]
    constructor
    · exact Int.ofNat_nonneg _
    · norm_num; omega
  · intro labelMap i ho
    refine ⟨?_, hiff.mpr (by rw [ho]), himm⟩
    unfold renderInstruction
    rw [if_neg (by omega), if_pos (Or.inr ho)]
  · intro labelMap i ho
    refine ⟨?_, ?_⟩
    · unfold renderInstruction
      rw [if_neg (by omega), if_pos (Or.inl ho)]
    · by_contra hc
      have := hiff.mp (by omega)
      rw [ho] at this
      omega
  · intro labelMap i ho
    unfold renderInstruction
    repeat (first | rw [if_pos (by omega)] | rw [if_neg (by omega)])
    rw [hd, toString_natCast]
  · intro labelMap i ho
    unfold renderInstruction
    repeat (first | rw [if_pos (by omega)] | rw [if_neg (by omega)])
    rw [hd, toString_natCast]

/-- Witness for C20: the ADDI word with immediate 4095 decodes with opcode
1161 and prints `#4095`. -/
theorem immediate_opcode_overlap_witness :
    (decodeFields 2436889667).opcode = 1161 ∧
    renderInstruction [] 0 (decodeFields 2436889667) = .line "ADDI X3, X2, #4095" ∧
    2048 ≤ (decodeFields 2436889667).immediate ∧ (decodeFields 2436889667).immediate ≤ 4095 :=
  ⟨by decide, (immediate_opcode_overlap 2436889667).2.2.1 [] 0 (by decide)⟩



theorem decode_false_panic_stdout {w : Nat} {s : State} {out : List String}
    (h : decode false w s = .panic out) : out = s.stdout := by
  unfold decode at h
  simp only [Bool.false_eq_true, if_false] at h
  split_ifs at h <;> first
    | (simp only [Exec.panic.injEq] at h; exact h.symm)
    | (split at h <;> first | (simp only [Exec.panic.injEq] at h; exact h.symm) | cases h)

theorem decodeAll_false_panic_stdout : ∀ (ws : List Nat) (s : State) (out : List String),
    decodeAll false ws s = .panic out → out = s.stdout := by
  intro ws
  induction ws with
  | nil => intro s out h; cases h
  | cons w ws ih =>
    intro s out h
    simp only [decodeAll] at h
    cases hd : decode false w s with
    | panic o =>
      rw [hd] at h
      simp only [Exec.panic.injEq] at h
      rw [← h]
      exact decode_false_panic_stdout hd
    | ok s1 =>
      rw [hd] at h
      rw [ih s1 out h]
      exact (decode_false_ok hd).2.2.2.1

theorem load_false_panic_stdout {file : List Byte} {out : List String}
    (h : load false file = .panic out) : out = [] := by
  unfold load at h
  rw [readLoop_eq] at h
  split_ifs at h <;> exact decodeAll_false_panic_stdout _ _ _ h

theorem main_false_of_not_ok {file : List Byte} (h : ∀ s, load false file ≠ .ok s) :
    main false file = ⟨[], true⟩ := by
  unfold main
  cases hl : load false file with
  | ok s => exact absurd hl (h s)
  | panic out => simp only [load_false_panic_stdout hl]

theorem misaligned_normal_panics (file : List Byte) (h : file.length % 4 ≠ 0) :
    main false file = ⟨[], true⟩ :=
  main_false_of_not_ok (fun _ hl => h (load_false_aligned hl))

theorem error_text (t : String) :
    "Error: " ++ ("Unhandled <cond> opcode (" ++ t ++ ") for instruction B.cond") =
      "Error: Unhandled <cond> opcode (" ++ t ++ ") for instruction B.cond" := by
  rw [← String.append_assoc, ← String.append_assoc]
  rfl

/-- C12, the code at a failing input: the 5-byte input FF E0 00 00 00 (one
`HALT` word and one stray byte) is not rejected as malformed. The short chunk
reaches `decode` as the zero word; in normal mode that call panics on the store
at index 1 and the run writes nothing, the `HALT` included; with the debug
toggle the zero word is dumped and rendered as an instruction. -/
theorem short_chunk_not_rejected :
    ([0xFF, 0xE0, 0x00, 0x00, 0x00] : List Byte).length % 4 ≠ 0 ∧
    load false [0xFF, 0xE0, 0x00, 0x00, 0x00] =
      decode false 0 ⟨[decodeFields 4292870144], [false], 1, []⟩ ∧
    main false [0xFF, 0xE0, 0x00, 0x00, 0x00] = ⟨[], true⟩ ∧
    main true [0xFF, 0xE0, 0x00, 0x00, 0x00] =
      ⟨["11111111111000000000000000000000\t2047", "0\t0",
        "Unhandled instruction; opcode in decimal: 0"], false⟩ := by
  decide

/-- C16, the code at failing inputs: with the debug toggle on, the run writes
the dump lines and then still renders. For the one-word input `HALT` the dump
line is followed by the assembly line `HALT`; for the two-word input
`ADDI X3, X2, #10; HALT` the two dump lines are followed by `HALT` (the last
word, stored at index 0) and an unhandled-opcode line for the slot that was
never written. -/
theorem debug_dump_then_renders :
    main true (encode [4292870144]) =
      ⟨["11111111111000000000000000000000\t2047", "HALT"], false⟩ ∧
    main true (encode [2432706627, 4292870144]) =
      ⟨["10010001000000000010100001000011\t1160", "11111111111000000000000000000000\t2047",
        "HALT", "Unhandled instruction; opcode in decimal: 0"], false⟩ := by
  decide


/-- C15: when the rendering reaches the first B.cond whose condition is not
recognised (rd > 13), `printAssembly` has written the lines of all earlier
instructions as usual, writes (after the label declaration of that index, if
it is marked) the one line
`Error: Unhandled <cond> opcode (<rd>) for instruction B.cond` where the line
of that instruction would be, and returns: nothing is written for any later
instruction. -/
theorem unrecognised_cond_stops_rendering (s : State) (pre post : List DecodedInstruction)
    (d : DecodedInstruction) (hlen : s.labels.length = s.instructions.length)
    (hs : s.instructions = pre ++ d :: post) (hpre : ∀ x ∈ pre, ¬ unrecognisedCond x)
    (hd : unrecognisedCond d) :
    ∃ (labelMap : LabelMap) (marked : Bool),
      nameLabels s.labels s.instructions.length 0 0 [] = some labelMap ∧
      s.labels[pre.length]? = some marked ∧
      printAssembly s =
        ⟨linesOf s.labels labelMap 0 pre ++ labelDecl labelMap pre.length marked
          ++ ["Error: Unhandled <cond> opcode (" ++ toString d.rd ++ ") for instruction B.cond"],
          false⟩ := by
  have hi : pre.length < s.labels.length := by
    rw [hlen, hs, List.length_append, List.length_cons]; omega
  refine ⟨namesFrom s.labels 0 0 [], s.labels[pre.length],
    by rw [← hlen]; exact nameLabels_total s.labels, List.getElem?_eq_getElem hi, ?_⟩
  rw [printAssembly_eq s hlen, hs,
    printLoop_split _ _ pre (d :: post) 0 hpre (by omega), Nat.zero_add]
  simp only [printLoop, List.getElem?_eq_getElem hi, render_abort_of_unrecognised _ _ d hd,
    Trace.prepend, error_text, List.append_assoc]

/-- Witness for C15: `HALT`; B.cond with condition 14 and offset 0; `HALT`. -/
theorem unrecognised_cond_stops_rendering_witness :
    printAssembly ⟨[decodeFields 4292870144, decodeFields 1409286158, decodeFields 4292870144],
        [false, true, false], 3, []⟩ =
      ⟨["HALT", "label0:", "Error: Unhandled <cond> opcode (14) for instruction B.cond"],
        false⟩ := by
  obtain ⟨labelMap, marked, h1, h2, h3⟩ := unrecognised_cond_stops_rendering
    ⟨[decodeFields 4292870144, decodeFields 1409286158, decodeFields 4292870144],
      [false, true, false], 3, []⟩
    [decodeFields 4292870144] [decodeFields 4292870144] (decodeFields 1409286158)
    (by decide) (by decide) (by decide) (by decide)
  have h1' : nameLabels [false, true, false] 3 0 0 [] = some labelMap := h1
  have e1 : nameLabels [false, true, false] 3 0 0 [] = some [((1 : Int), "label0")] := by decide
  rw [e1] at h1'
  have h2' : [false, true, false][1]? = some marked := h2
  have e2 : [false, true, false][1]? = some true := by decide
  rw [e2] at h2'
  obtain rfl := Option.some.inj h1'
  obtain rfl := Option.some.inj h2'
  rw [h3]
  decide

/-- C17, amended: for a branch word at index `k` of the input whose computed
target (`k + bAddress` for B and BL, `k + cbAddress` for B.cond, CBZ and CBNZ)
lies outside `0..N-1`, `decode` has no check of the target, and the assignment
that marks it panics inside `decode`: loading does not complete, the run ends
in that panic, and nothing is rendered. -/
theorem out_of_range_target_panics (file : List Byte) (k w : Nat) (t : Int)
    (hw : (wordsOf file)[k]? = some w)
    (ht : branchTarget (decodeFields w) k = some t)
    (hout : t < 0 ∨ ((file.length / 4 : Nat) : Int) ≤ t) :
    (∀ s : State, s.instructionIndex = k → k < s.instructions.length →
      s.labels.length = file.length / 4 → decode false w s = .panic s.stdout) ∧
    (∀ s : State, load false file ≠ .ok s) ∧
    main false file = ⟨[], true⟩ := by
  have hno : ∀ s : State, load false file ≠ .ok s := by
    intro s hl
    obtain ⟨_, l2⟩ := decodeAll_false_labels _ _ _ (load_false_eq hl)
    have h0 : (initState file).instructionIndex = 0 := rfl
    have := l2 k w t hw (by rw [h0, Nat.zero_add]; exact ht)
    simp only [initState, List.length_replicate] at this
    omega
  refine ⟨?_, hno, main_false_of_not_ok hno⟩
  intro s hk hidx hl
  subst hk
  exact decode_false_branch_panic hidx ht (by rw [hl]; exact hout)

/-- Witness for C17, amended: the one-word program `B +1` (target 1, outside
`0..0`). -/
theorem out_of_range_target_panics_witness :
    decode false 335544321 ⟨[DecodedInstruction.zero], [false], 0, []⟩ = .panic [] ∧
    main false (encode [335544321]) = ⟨[], true⟩ :=
  ⟨(out_of_range_target_panics (encode [335544321]) 0 335544321 1 (by decide) (by decide)
      (by decide)).1 ⟨[DecodedInstruction.zero], [false], 0, []⟩ (by decide) (by decide)
      (by decide),
    (out_of_range_target_panics (encode [335544321]) 0 335544321 1 (by decide) (by decide)
      (by decide)).2.2⟩

/-- Counterexample to C17 as stated: for the one-word program `B +1` the target
index 1 lies outside `0..0`, loading does not complete (the call of `decode`
panics), and the run reaches no rendering. -/
theorem out_of_range_target_counterexample :
    branchTarget (decodeFields 335544321) 0 = some 1 ∧
    (encode [335544321]).length / 4 = 1 ∧
    load false (encode [335544321]) = .panic [] ∧
    (∀ s : State, load false (encode [335544321]) ≠ .ok s) ∧
    main false (encode [335544321]) = ⟨[], true⟩ := by
  refine ⟨by decide, by decide, by decide, ?_, by decide⟩
  intro s h
  have e : load false (encode [335544321]) = .panic [] := by decide
  rw [e] at h
  cases h

/-! ## Label names in the output (C19) -/

theorem digitsValue_foldl (cs : List Char) : ∀ a : Nat,
    cs.foldl (fun a c => 10 * a + (c.toNat - 48)) a = a * 10 ^ cs.length + digitsValue cs := by
  induction cs with
  | nil => intro a; simp [digitsValue]
  | cons c cs ih =>
    intro a
    simp only [List.foldl_cons, List.length_cons, digitsValue]
    rw [ih (10 * a + (c.toNat - 48)), ih (10 * 0 + (c.toNat - 48))]
    ring

theorem digitChar_value (k : Nat) (h : k < 10) : (Nat.digitChar k).toNat - 48 = k := by
  interval_cases k <;> rfl

theorem toDigitsCore_value : ∀ (fuel n : Nat) (ds : List Char), n < fuel →
    digitsValue (Nat.toDigitsCore 10 fuel n ds) = n * 10 ^ ds.length + digitsValue ds := by
  intro fuel
  induction fuel with
  | zero => intro n ds h; omega
  | succ fuel ih =>
    intro n ds h
    simp only [Nat.toDigitsCore]
    have hv : digitsValue (Nat.digitChar (n % 10) :: ds) = n % 10 * 10 ^ ds.length + digitsValue ds := by
      simp only [digitsValue, List.foldl_cons]
      rw [digitsValue_foldl, digitChar_value _ (Nat.mod_lt _ (by decide))]
      simp [digitsValue]
    split_ifs with h0
    · rw [hv]
      have : n % 10 = n := by omega
      rw [this]
    · rw [ih (n / 10) _ (by omega), hv, List.length_cons, pow_succ]
      have : n = 10 * (n / 10) + n % 10 := by omega
      conv_rhs => rw [this]
      ring

theorem toString_nat_injective (a b : Nat) (h : toString a = toString b) : a = b := by
  have ha : digitsValue (toString a).data = a := by
    show digitsValue (Nat.toDigitsCore 10 (a + 1) a []) = a
    rw [toDigitsCore_value _ _ _ (by omega)]; simp [digitsValue]
  have hb : digitsValue (toString b).data = b := by
    show digitsValue (Nat.toDigitsCore 10 (b + 1) b []) = b
    rw [toDigitsCore_value _ _ _ (by omega)]; simp [digitsValue]
  rw [← ha, ← hb, h]

theorem labelName_injective (a b : Nat) (h : "label" ++ toString a = "label" ++ toString b) :
    a = b := by
  apply toString_nat_injective
  have := congrArg String.data h
  simp only [String.data_append] at this
  exact String.ext (List.append_cancel_left this)

theorem declLine_injective :
    Function.Injective (fun k : Nat => "label" ++ toString k ++ ":") := by
  intro a b h
  apply labelName_injective
  have := congrArg String.data h
  simp only [String.data_append] at this
  exact String.ext (by simpa [String.data_append] using List.append_cancel_right this)

theorem getD_true_iff (labels : List Bool) (j : Nat) :
    labels.getD j false = (labels[j]? == some true) := by
  rw [List.getD_eq_getElem?_getD]
  cases labels[j]? with
  | none => rfl
  | some b => cases b <;> rfl

theorem filter_label_linesOf (labels : List Bool) :
    ∀ (ds : List DecodedInstruction) (i : Nat),
      (linesOf labels (namesFrom labels 0 0 []) i ds).filter isLabelLine =
        ((List.range' i ds.length).filter (fun j => labels[j]? == some true)).map
          (fun j : Nat => LabelMap.get (namesFrom labels 0 0 []) (j : Int) ++ ":") := by
  intro ds
  induction ds with
  | nil => intro i; rfl
  | cons d ds ih =>
    intro i
    have hr := render_not_label (namesFrom labels 0 0 []) i d
    simp only [linesOf, linesAt, List.filter_append, ih (i + 1), List.length_cons,
      List.range'_succ, List.filter_cons, List.filter_nil, hr, labelDecl, getD_true_iff]
    cases hm : (labels[i]? == some true) with
    | false => simp
    | true =>
      have hi : labels[i]? = some true := by simpa using hm
      obtain ⟨k, hk⟩ := name_of_marked labels i hi
      simp [get_of_find hk, label_decl_is_label k]

theorem marked_names_eq (labels : List Bool) :
    (markedIndices labels).map
        (fun j : Nat => LabelMap.get (namesFrom labels 0 0 []) (j : Int) ++ ":") =
      (List.range (markedIndices labels).length).map (fun k => "label" ++ toString k ++ ":") := by
  apply List.ext_getElem
  · simp
  · intro n h1 h2
    simp only [List.getElem_map, List.getElem_range]
    have hn : n < (markedFrom labels 0).length := by
      rw [← markedIndices_eq]; simpa using h1
    have := namesFrom_find_marked labels 0 0 [] n hn
    rw [Nat.zero_add] at this
    simp only [markedIndices_eq]
    rw [get_of_find this]

theorem name_of_marked_lt (labels : List Bool) (t : Nat) (h : labels[t]? = some true) :
    ∃ k : Nat, k < (markedIndices labels).length ∧ (markedIndices labels)[k]? = some t ∧
      LabelMap.find? (namesFrom labels 0 0 []) (t : Int) = some ("label" ++ toString k) := by
  have hm : t ∈ markedFrom labels 0 := by
    rw [← markedIndices_eq]; exact (mem_markedIndices labels t).mpr h
  obtain ⟨j, hj, e⟩ := List.getElem_of_mem hm
  have := namesFrom_find_marked labels 0 0 [] j hj
  rw [e, Nat.zero_add] at this
  refine ⟨j, by rw [markedIndices_eq]; exact hj, ?_, this⟩
  simp only [markedIndices_eq]
  rw [← e]
  exact List.getElem?_eq_getElem hj

theorem count_decl_linesOf (labels : List Bool) (ds : List DecodedInstruction)
    (hlen : ds.length = labels.length) (k : Nat) (hk : k < (markedIndices labels).length) :
    (linesOf labels (namesFrom labels 0 0 []) 0 ds).count ("label" ++ toString k ++ ":") = 1 := by
  have hf := filter_label_linesOf labels ds 0
  rw [hlen, ← List.range_eq_range'] at hf
  have hf' : (linesOf labels (namesFrom labels 0 0 []) 0 ds).filter isLabelLine =
      (List.range (markedIndices labels).length).map (fun k => "label" ++ toString k ++ ":") := by
    rw [hf]; exact marked_names_eq labels
  rw [← List.count_filter (label_decl_is_label k), hf',
    List.count_map_of_injective _ _ declLine_injective]
  exact List.count_eq_one_of_mem (List.nodup_range _) (List.mem_range.mpr hk)

theorem targeted_is_marked {file : List Byte} {s : State} (h : load false file = .ok s)
    {i j : Nat} {d : DecodedInstruction} (hi : s.instructions[i]? = some d)
    (ht : Targets d i j) : s.labels[j]? = some true := by
  have hd := load_false_eq h
  obtain ⟨l1, _⟩ := decodeAll_false_labels _ _ _ hd
  obtain ⟨i1, _⟩ := decodeAll_false_instructions _ _ _ hd
  obtain ⟨_, hilen, _, _⟩ := decodeAll_false_shape _ _ _ hd
  have hidx : (initState file).instructionIndex = 0 := rfl
  simp only [hidx, Nat.zero_add] at i1 l1
  have hiN : i < (wordsOf file).length := by
    have := (List.getElem?_eq_some_iff.mp hi).1
    rw [hilen] at this
    simpa [initState, wordsOf_length] using this
  have hw := i1 i hiN
  rw [hi, List.getElem?_eq_getElem hiN] at hw
  simp only [Option.map_some', Option.some.injEq] at hw
  rw [l1]
  exact Or.inr ⟨i, _, List.getElem?_eq_getElem hiN, by
    rw [← hw]; exact (branchTarget_iff _ _ _).mpr ht⟩

theorem render_with_label (labelMap : LabelMap) (i j : Nat) (d : DecodedInstruction)
    (name : String) (ht : Targets d i j) (hn : LabelMap.get labelMap (j : Int) = name)
    (hgood : ¬ unrecognisedCond d) :
    ∃ head, renderInstruction labelMap i d = .line (head ++ name) := by
  unfold Targets at ht
  rcases ht with ⟨hop | hop, e⟩ | ⟨hop | hop | hop, e⟩
  · refine ⟨"B ", ?_⟩
    unfold renderInstruction
    repeat (first | rw [if_pos (by omega)] | rw [if_neg (by omega)])
    rw [e, hn]
  · refine ⟨"BL ", ?_⟩
    unfold renderInstruction
    repeat (first | rw [if_pos (by omega)] | rw [if_neg (by omega)])
    rw [e, hn]
  · have hrd : d.rd ≤ 13 := by
      by_contra hc
      exact hgood ⟨hop, by omega⟩
    refine ⟨"B." ++ specConds.getD d.rd "" ++ " ", ?_⟩
    unfold renderInstruction
    rw [specConds_getCond _ hrd]
    repeat (first | rw [if_pos (by omega)] | rw [if_neg (by omega)])
    simp only [e, hn]
  · refine ⟨"CBZ X" ++ toString d.rd ++ ", ", ?_⟩
    unfold renderInstruction
    repeat (first | rw [if_pos (by omega)] | rw [if_neg (by omega)])
    rw [e, hn]
  · refine ⟨"CBNZ X" ++ toString d.rd ++ ", ", ?_⟩
    unfold renderInstruction
    repeat (first | rw [if_pos (by omega)] | rw [if_neg (by omega)])
    rw [e, hn]

/-- C19: in normal mode, for every program that loads without failure and
holds no B.cond with an unrecognised condition: the naming pass completes; for
every B, BL, B.cond, CBZ or CBNZ at an index `i` with target `j`, the operand on
its line is the name found for `j`, a non-empty `label<k>`, and the output of
the run holds the declaration `label<k>:` exactly once; and two distinct marked
indices never have the same name. -/
theorem labels_declared_exactly_once (file : List Byte) (s : State)
    (h : load false file = .ok s) (hgood : ∀ x ∈ s.instructions, ¬ unrecognisedCond x) :
    ∃ labelMap : LabelMap, nameLabels s.labels s.instructions.length 0 0 [] = some labelMap ∧
      (∀ (i j : Nat) (d : DecodedInstruction), s.instructions[i]? = some d → Targets d i j →
        ∃ k : Nat, LabelMap.get labelMap (j : Int) = "label" ++ toString k ∧
          "label" ++ toString k ≠ "" ∧
          (∃ head, renderInstruction labelMap i d = .line (head ++ ("label" ++ toString k))) ∧
          (main false file).lines.count ("label" ++ toString k ++ ":") = 1) ∧
      (∀ a b : Nat, s.labels[a]? = some true → s.labels[b]? = some true → a ≠ b →
        LabelMap.get labelMap (a : Int) ≠ LabelMap.get labelMap (b : Int)) := by
  have hl := load_lengths h
  have hlen : s.labels.length = s.instructions.length := by rw [hl.1, hl.2]
  refine ⟨namesFrom s.labels 0 0 [], by rw [← hlen]; exact nameLabels_total s.labels, ?_, ?_⟩
  · intro i j d hi ht
    have hm := targeted_is_marked h hi ht
    obtain ⟨k, hk, _, hf⟩ := name_of_marked_lt s.labels j hm
    have hg := get_of_find hf
    refine ⟨k, hg, ?_, ?_, ?_⟩
    · intro he
      have := congrArg String.data he
      simp [String.data_append] at this
    · obtain ⟨hlt, e⟩ := List.getElem?_eq_some_iff.mp hi
      exact render_with_label _ i j d _ ht hg (hgood d (e ▸ List.getElem_mem hlt))
    · rw [main_false_ok h, printLoop_all _ _ _ hgood (by rw [hlen])]
      exact count_decl_linesOf s.labels s.instructions hlen.symm k hk
  · intro a b ha hb hab he
    obtain ⟨ka, _, ea, fa⟩ := name_of_marked_lt s.labels a ha
    obtain ⟨kb, _, eb, fb⟩ := name_of_marked_lt s.labels b hb
    rw [get_of_find fa, get_of_find fb] at he
    have := labelName_injective ka kb he
    subst this
    rw [ea] at eb
    exact hab (Option.some.inj eb)

/-- Witness for C19: the program `B +1; HALT` writes `B label0`, `label0:`,
`HALT`; the operand `label0` is declared exactly once. -/
theorem labels_declared_exactly_once_witness :
    (main false (encode [335544321, 4292870144])).lines = ["B label0", "label0:", "HALT"] ∧
    ∃ labelMap : LabelMap, nameLabels [false, true] 2 0 0 [] = some labelMap ∧
      ∃ k : Nat, LabelMap.get labelMap 1 = "label" ++ toString k ∧
        (main false (encode [335544321, 4292870144])).lines.count ("label" ++ toString k ++ ":")
          = 1 := by
  refine ⟨by decide, ?_⟩
  obtain ⟨labelMap, h1, h2, _⟩ := labels_declared_exactly_once
    (encode [335544321, 4292870144])
    ⟨[decodeFields 335544321, decodeFields 4292870144], [false, true], 2, []⟩ (by decide)
    (by decide)
  obtain ⟨k, hk, _, _, hc⟩ := h2 0 1 (decodeFields 335544321) (by decide) (by decide)
  exact ⟨labelMap, h1, k, hk, hc⟩

/-! ## The chain as a list of branches (C14) -/

theorem renderWith_nil (labelMap : LabelMap) (i : Nat) (instr : DecodedInstruction) :
    renderWith [] labelMap i instr =
      .line ("Unhandled instruction; opcode in decimal: " ++ toString instr.opcode) := rfl

theorem renderWith_cons (b : Branch) (bs : List Branch) (labelMap : LabelMap) (i : Nat)
    (instr : DecodedInstruction) :
    renderWith (b :: bs) labelMap i instr =
      if b.cond instr.opcode = true then b.emit labelMap i instr
      else renderWith bs labelMap i instr := by
  unfold renderWith
  rw [List.find?_cons]
  cases h : b.cond instr.opcode <;> simp

theorem ite_congr_iff {c c' : Prop} [Decidable c] [Decidable c'] {a a' b b' : Emit}
    (hc : c ↔ c') (ha : a = a') (hb : b = b') :
    (if c then a else b) = (if c' then a' else b') := by
  subst ha hb
  by_cases h : c
  · rw [if_pos h, if_pos (hc.mp h)]
  · rw [if_neg h, if_neg (fun h' => h (hc.mpr h'))]

theorem renderWith_chain (labelMap : LabelMap) (i : Nat) (instr : DecodedInstruction) :
    renderWith chainBranches labelMap i instr = renderInstruction labelMap i instr := by
  unfold chainBranches renderInstruction
  repeat (rw [renderWith_cons]; refine ite_congr_iff (by simp) rfl ?_)
  rfl

theorem chain_pairwise :
    chainBranches.Pairwise (fun b b' => ∀ op : Nat, ¬ (b.cond op = true ∧ b'.cond op = true)) := by
  unfold chainBranches
  simp only [List.pairwise_cons, List.mem_cons, List.mem_singleton, forall_eq_or_imp, forall_eq,
    List.not_mem_nil, IsEmpty.forall_iff, implies_true, List.Pairwise.nil, and_true,
    beq_iff_eq, Bool.or_eq_true, Bool.and_eq_true, decide_eq_true_eq]
  repeat' constructor
  all_goals (intro op; omega)

theorem filter_length_le_one {α : Type} (p : α → Bool) :
    ∀ l : List α, l.Pairwise (fun a b => ¬ (p a = true ∧ p b = true)) →
      (l.filter p).length ≤ 1 := by
  intro l
  induction l with
  | nil => intro _; simp
  | cons a l ih =>
    intro h
    rw [List.pairwise_cons] at h
    by_cases ha : p a = true
    · have : l.filter p = [] := by
        rw [List.filter_eq_nil_iff]
        intro x hx hpx
        exact h.1 x hx ⟨ha, hpx⟩
      simp [List.filter_cons, ha, this]
    · simp only [List.filter_cons, ha, Bool.false_eq_true, if_false]
      exact ih h.2

theorem find?_perm_of_disjoint {α : Type} (p : α → Bool) {l l' : List α} (hp : l.Perm l')
    (h : l.Pairwise (fun a b => ¬ (p a = true ∧ p b = true))) : l.find? p = l'.find? p := by
  have hsymm : Symmetric (fun a b : α => ¬ (p a = true ∧ p b = true)) :=
    fun a b hab hba => hab ⟨hba.2, hba.1⟩
  cases hf : l.find? p with
  | none =>
    rw [List.find?_eq_none] at hf
    symm
    rw [List.find?_eq_none]
    intro x hx
    exact hf x (hp.symm.subset hx)
  | some a =>
    have ha : p a = true := List.find?_some hf
    have hal : a ∈ l := List.mem_of_find?_eq_some hf
    cases hf' : l'.find? p with
    | none =>
      rw [List.find?_eq_none] at hf'
      exact absurd ha (hf' a (hp.subset hal))
    | some b =>
      have hb : p b = true := List.find?_some hf'
      have hbl : b ∈ l := hp.symm.subset (List.mem_of_find?_eq_some hf')
      by_cases hab : a = b
      · rw [hab]
      · exact absurd ⟨ha, hb⟩ (h.forall hsymm hal hbl hab)

theorem ite_eq_of {c : Prop} [Decidable c] {a a' b b' : Emit}
    (ha : c → a = a') (hb : ¬ c → b = b') :
    (if c then a else b) = (if c then a' else b') := by
  by_cases h : c
  · rw [if_pos h, if_pos h]; exact ha h
  · rw [if_neg h, if_neg h]; exact hb h

theorem render_independent_of_labels (m m' : LabelMap) (i : Nat) (d : DecodedInstruction)
    (hn : ¬ (marksWithBAddress d.opcode ∨ marksWithCbAddress d.opcode)) :
    renderInstruction m i d = renderInstruction m' i d := by
  unfold marksWithBAddress marksWithCbAddress at hn
  unfold renderInstruction
  repeat' (first
    | (refine ite_eq_of ?_ ?_ <;> intro _)
    | rfl
    | (exfalso; omega))

theorem render_depends_on_labels (op : Nat)
    (h : marksWithBAddress op ∨ marksWithCbAddress op) : rendersLabelOperand op := by
  refine ⟨⟨op, 0, 0, 0, 0, 0, 0, 0, 0⟩, 0, [], [((0 : Int), "x")], rfl, ?_⟩
  unfold marksWithBAddress marksWithCbAddress at h
  unfold renderInstruction
  dsimp only
  rcases h with (h | h) | (h | h | h) <;>
  · repeat (first | rw [if_pos (by omega)] | rw [if_neg (by omega)])
    decide

/-- C14: the conditions of the if/else chain of `printAssembly` are pairwise
disjoint, so every opcode satisfies at most one of them and the chain gives the
same result in any order of its branches; the two marking conditions of
`decode` are disjoint, and together they hold exactly for the opcodes that
`printAssembly` renders with a label operand. -/
theorem chain_conditions_disjoint :
    (∀ (labelMap : LabelMap) (i : Nat) (d : DecodedInstruction),
      renderWith chainBranches labelMap i d = renderInstruction labelMap i d) ∧
    chainBranches.Pairwise
      (fun b b' => ∀ op : Nat, ¬ (b.cond op = true ∧ b'.cond op = true)) ∧
    (∀ op : Nat, (chainBranches.filter (fun b => b.cond op)).length ≤ 1) ∧
    (∀ branches : List Branch, branches.Perm chainBranches →
      ∀ (labelMap : LabelMap) (i : Nat) (d : DecodedInstruction),
        renderWith branches labelMap i d = renderInstruction labelMap i d) ∧
    (∀ op : Nat, ¬ (marksWithBAddress op ∧ marksWithCbAddress op)) ∧
    (∀ (w : Nat) (s s' : State), decode false w s = .ok s' →
      (s'.labels ≠ s.labels →
        marksWithBAddress (decodeFields w).opcode ∨ marksWithCbAddress (decodeFields w).opcode)) ∧
    (∀ op : Nat, rendersLabelOperand op ↔ (marksWithBAddress op ∨ marksWithCbAddress op)) := by
  have hpw : ∀ op : Nat, chainBranches.Pairwise
      (fun b b' => ¬ ((fun x : Branch => x.cond op) b = true ∧
        (fun x : Branch => x.cond op) b' = true)) :=
    fun op => chain_pairwise.imp (fun hbb => hbb op)
  refine ⟨renderWith_chain, chain_pairwise, fun op => filter_length_le_one _ _ (hpw op), ?_, ?_,
    ?_, ?_⟩
  · intro branches hp labelMap i d
    rw [← renderWith_chain]
    unfold renderWith
    rw [find?_perm_of_disjoint _ hp.symm (hpw d.opcode)]
  · intro op h
    unfold marksWithBAddress marksWithCbAddress at h
    omega
  · intro w s s' h hne
    obtain ⟨_, _, _, _, hb⟩ := decode_false_ok h
    rcases hb with ⟨_, e⟩ | ⟨t, ht, _, _, _⟩
    · exact absurd e hne
    · unfold branchTarget at ht
      unfold marksWithBAddress marksWithCbAddress
      split_ifs at ht with h1 h2
      · exact Or.inl h1
      · exact Or.inr h2
  · intro op
    constructor
    · rintro ⟨d, i, m, m', hop, hne⟩
      by_contra hn
      exact hne (render_independent_of_labels m m' i d (by rw [hop]; exact hn))
    · exact render_depends_on_labels op

/-- Witness for C14: the chain with its branches in reverse order renders the
word of `ADDI X3, X2, #10` as the original chain does. -/
theorem chain_conditions_disjoint_witness :
    chainBranches.reverse.Perm chainBranches ∧
    renderWith chainBranches.reverse [] 0 (decodeFields 2432706627) =
      renderInstruction [] 0 (decodeFields 2432706627) ∧
    renderInstruction [] 0 (decodeFields 2432706627) = .line "ADDI X3, X2, #10" :=
  ⟨List.reverse_perm _,
    chain_conditions_disjoint.2.2.2.1 chainBranches.reverse (List.reverse_perm _) [] 0
      (decodeFields 2432706627),
    by decide⟩

end Disassembler
